import Mathlib

/-! # Verification of the SDL threading / mutex benchmark (`benchmark.cpp`)

Shallow embedding of the benchmark's pure and stateful parts:

* machine integers are mathematical integers reduced explicitly
  (`wrapInt32`, `wrapUint32`, `toSizeT`);
* integer division and remainder by zero, and of `INT_MIN` by `-1`, have no
  defined result (the program traps) and are modelled by `none`;
* `SDL_GetTicks`, `SDL_PollEvent`, `SDL_RenderPresent` and `std::rand` are
  external: their results are parameters of the model.
-/

namespace Benchmark

/-! ## Machine integers -/

/-- Value of a mathematical integer after reduction to a 32-bit two's complement `int`. -/
def wrapInt32 (v : Int) : Int := (v + 2147483648) % 4294967296 - 2147483648

/-- Value of a mathematical integer after reduction to a `Uint32`. -/
def wrapUint32 (v : Int) : Int := v % 4294967296

/-- Value of a mathematical integer after conversion to a 64-bit `size_t`. -/
def toSizeT (v : Int) : Int := v % 18446744073709551616

/-- Range of the C++ type `int`. -/
def IsInt32 (v : Int) : Prop := -2147483648 ≤ v ∧ v < 2147483648

instance (v : Int) : Decidable (IsInt32 v) := by unfold IsInt32; infer_instance

/-- C++ `a % b` on `int`: truncating remainder; no defined result (`none`) for a zero divisor
and for `INT_MIN % -1`. -/
def cRem (a b : Int) : Option Int :=
  if b = 0 then none
  else if a = -2147483648 ∧ b = -1 then none
  else some (wrapInt32 (Int.tmod a b))

/-- C++ `a / b` on `int`: truncating quotient; no defined result (`none`) for a zero divisor
and for `INT_MIN / -1`. -/
def cDiv (a b : Int) : Option Int :=
  if b = 0 then none
  else if a = -2147483648 ∧ b = -1 then none
  else some (wrapInt32 (Int.tdiv a b))

/-! ## Geometry model -/

/-- The SDL point `{x, y}`; used for the domain size `{width, height}`. -/
structure SDL_Point where
  x : Int
  y : Int
  deriving DecidableEq, Repr

/-- The SDL rectangle `{x, y, w, h}`. -/
structure SDL_Rect where
  x : Int
  y : Int
  w : Int
  h : Int
  deriving DecidableEq, Repr

/-- `randomRect(size, sideLen)`; `r1` and `r2` are the results of the two `std::rand()` calls,
in the order of the initializer list. -/
def randomRect (r1 r2 : Int) (size : SDL_Point) (sideLen : Int) : Option SDL_Rect :=
  match cRem r1 (wrapInt32 (size.x - sideLen)) with
  | none => none
  | some x =>
    match cRem r2 (wrapInt32 (size.y - sideLen)) with
    | none => none
    | some y => some { x := x, y := y, w := sideLen, h := sideLen }

/-- `moveRect(rect, size)`: the rectangle after the two assignments. -/
def moveRect (rect : SDL_Rect) (size : SDL_Point) : Option SDL_Rect :=
  match cRem (wrapInt32 (rect.x + 1)) size.x with
  | none => none
  | some x =>
    match cRem (wrapInt32 (rect.y + 1)) size.y with
    | none => none
    | some y => some { rect with x := x, y := y }

/-- `n` successive applications of `moveRect` to one rectangle. -/
def moveRectN : Nat → SDL_Rect → SDL_Point → Option SDL_Rect
  | 0, rect, _ => some rect
  | n + 1, rect, size =>
    match moveRect rect size with
    | none => none
    | some r => moveRectN n r size

/-- One step of an in-place update pass: `moveRect(rects[i], size)`.
An index outside the array has no defined result. -/
def moveAt (size : SDL_Point) (rects : List SDL_Rect) (i : Nat) : Option (List SDL_Rect) :=
  match rects[i]? with
  | none => none
  | some r =>
    match moveRect r size with
    | none => none
    | some r2 => some (rects.set i r2)

/-- The objects of `rects` advanced in place, one after the other, in the order given by
the index list `order`. -/
def advanceInOrder (size : SDL_Point) : List Nat → List SDL_Rect → Option (List SDL_Rect)
  | [], rects => some rects
  | i :: order, rects =>
    match moveAt size rects i with
    | none => none
    | some rects2 => advanceInOrder size order rects2

/-- The update loop `for (int i = 0; i < numRects; i++) moveRect(rects[i], size);`. -/
def moveAll (size : SDL_Point) (numRects : Nat) (rects : List SDL_Rect) :
    Option (List SDL_Rect) :=
  advanceInOrder size (List.range numRects) rects

/-- The collection after `k` successive update passes. -/
def advanceN (size : SDL_Point) (numRects : Nat) : Nat → List SDL_Rect → Option (List SDL_Rect)
  | 0, rects => some rects
  | k + 1, rects =>
    match advanceN size numRects k rects with
    | none => none
    | some cur => moveAll size numRects cur

/-- Relation between a collection `rects` and the array `out` reached when exactly the objects
at indices below `k` have been advanced once: those hold the `moveRect` result of the original
object at the same index, the others are untouched. -/
def MovedPrefix (size : SDL_Point) (k : Nat) (rects out : List SDL_Rect) : Prop :=
  out.length = rects.length ∧
    ∀ j : Nat,
      (j < k → j < rects.length →
        ∃ r r2, rects[j]? = some r ∧ out[j]? = some r2 ∧ moveRect r size = some r2) ∧
      (k ≤ j → out[j]? = rects[j]?)

/-! ## Statistical reducer -/

/-- `std::sort` on a vector of `int`: the ascending rearrangement. -/
def sort (vals : List Int) : List Int := vals.insertionSort (· ≤ ·)

/-- `std::accumulate(first, last, init)` with an `int` accumulator. -/
def accumulate (vals : List Int) (init : Int) : Int :=
  vals.foldl (fun acc v => wrapInt32 (acc + v)) init

/-- `avgMinExcluded(vals)`. The vector is sorted in place (no caller reads it afterwards),
the elements from `begin() + 1` are accumulated as `int`, and the sum is divided by the
`size_t` value `vals.size() - 1`: the sum is converted to `size_t`, the division is unsigned and
the quotient is converted back to `int`. For an empty vector `begin() + 1` is past the end, for
one element the divisor is zero: no defined result. For a non-empty vector `size() - 1` does not
wrap. -/
def avgMinExcluded (vals : List Int) : Option Int :=
  match sort vals with
  | [] => none
  | _ :: rest =>
    let sum := accumulate rest 0
    let divisor : Int := (vals.length : Int) - 1
    if divisor = 0 then none else some (wrapInt32 (toSizeT sum / divisor))

/-! ## Benchmark loop -/

/-- The event type `SDL_QUIT`. -/
def SDL_QUIT : Nat := 256

/-- The external services the benchmark calls, over a state `σ` of the outside world
(clock, event queue, renderer, random number generator). -/
structure Platform (σ : Type) where
  /-- `SDL_GetTicks()` -/
  getTicks : σ → Int × σ
  /-- The event types delivered by successive `SDL_PollEvent` calls until it returns 0. -/
  pollEvents : σ → List Nat × σ
  /-- `SDL_RenderPresent(renderer)` -/
  renderPresent : σ → σ
  /-- `SDL_SetRenderDrawColor(ren, r, g, b, a)` -/
  setRenderDrawColor : Int → Int → Int → Int → σ → σ
  /-- `SDL_RenderClear(ren)` -/
  renderClear : σ → σ
  /-- `SDL_RenderFillRects(ren, rects, count)`, given the `count` rectangles read. -/
  renderFillRects : List SDL_Rect → σ → σ
  /-- `std::rand()` -/
  rand : σ → Int × σ

/-- The fields of `Runner` that `run` and the strategies read or write. -/
structure Runner where
  width : Int
  height : Int
  duration : Int
  quit : Bool
  deriving DecidableEq, Repr

/-- Outcome of one `Runner::run` call. `iterations` and `polled` are not program state: they
record how many times the loop body ran and which event types the body polled. -/
structure RunResult (σ τ : Type) where
  fps : Int
  runner : Runner
  world : σ
  closure : τ
  iterations : Nat
  polled : List Nat

/-- The inner loop `while (SDL_PollEvent(&e) != 0) if (e.type == SDL_QUIT) quit = true;`
over the events delivered. -/
def pollLoop (events : List Nat) (quit : Bool) : Bool :=
  events.foldl (fun q e => if e = SDL_QUIT then true else q) quit

/-- Loop variables of `Runner::run`, with the two recording fields of `RunResult`. -/
structure LoopState (σ τ : Type) where
  quit : Bool
  count : Int
  world : σ
  closure : τ
  iterations : Nat
  polled : List Nat

/-- The loop `while (!quit && SDL_GetTicks() < deadline) ...` of `Runner::run`. The frame function
`fn` is a callable with captured state `τ`; `none` from it means it has no defined result.
`fuel` bounds the number of loop tests; `none` is returned when it runs out. -/
def runLoop {σ τ : Type} (p : Platform σ) (fn : σ → τ → Option (σ × τ)) (deadline : Int) :
    Nat → LoopState σ τ → Option (LoopState σ τ)
  | 0, _ => none
  | fuel + 1, s =>
    if s.quit then some s
    else
      let t := p.getTicks s.world
      if wrapUint32 t.1 < deadline then
        let ev := p.pollEvents t.2
        match fn ev.2 s.closure with
        | none => none
        | some (w, c) =>
          runLoop p fn deadline fuel
            { quit := pollLoop ev.1 s.quit
              count := wrapInt32 (s.count + 1)
              world := p.renderPresent w
              closure := c
              iterations := s.iterations + 1
              polled := s.polled ++ ev.1 }
      else some { s with world := t.2 }

/-- `Runner::run(fn)`: the FPS value returned, the runner (its `quit` flag may have been set),
the world and the callable's captured state afterwards. -/
def Runner.run {σ τ : Type} (runner : Runner) (p : Platform σ) (fn : σ → τ → Option (σ × τ))
    (fuel : Nat) (w : σ) (c : τ) : Option (RunResult σ τ) :=
  let t := p.getTicks w
  let deadline := wrapUint32 (wrapUint32 t.1 + runner.duration)
  match runLoop p fn deadline fuel
      { quit := runner.quit, count := 0, world := t.2, closure := c,
        iterations := 0, polled := [] } with
  | none => none
  | some s =>
    match cDiv runner.duration 1000 with
    | none => none
    | some seconds =>
      match cDiv s.count seconds with
      | none => none
      | some fps =>
        some { fps := fps, runner := { runner with quit := s.quit }, world := s.world,
               closure := s.closure, iterations := s.iterations, polled := s.polled }

/-! ## Strategy (a): single thread, no mutex -/

/-- `fillRects(ren, rects, numRects)`. -/
def fillRects {σ : Type} (p : Platform σ) (rects : List SDL_Rect) (numRects : Nat) (w : σ) : σ :=
  p.renderFillRects (rects.take numRects)
    (p.setRenderDrawColor 255 255 255 255
      (p.renderClear (p.setRenderDrawColor 0 0 0 255 w)))

/-- Variables captured by the frame lambda of `runSingleThreadNoMutex` that it reads or writes:
the rectangle array and `updateTime`. -/
structure FrameState where
  rects : List SDL_Rect
  updateTime : Int
  deriving DecidableEq, Repr

/-- The frame lambda of `runSingleThreadNoMutex`. In `now - updateTime >= updatePeriod` the
left side is a `Uint32` and the `int` on the right is converted to unsigned. -/
def singleThreadFrame {σ : Type} (p : Platform σ) (size : SDL_Point) (numRects : Nat)
    (updatePeriod : Int) (w : σ) (st : FrameState) : Option (σ × FrameState) :=
  let t := p.getTicks w
  let now := wrapUint32 t.1
  if wrapUint32 updatePeriod ≤ wrapUint32 (now - st.updateTime) then
    match moveAll size numRects st.rects with
    | none => none
    | some rects => some (fillRects p rects numRects t.2, { rects := rects, updateTime := now })
  else some (fillRects p st.rects numRects t.2, st)

/-- The initialisation loop `rects[i] = randomRect(size, sideLen)` for `i = 0 .. numRects - 1`. -/
def initRects {σ : Type} (p : Platform σ) (size : SDL_Point) (sideLen : Int) :
    Nat → σ → Option (List SDL_Rect × σ)
  | 0, w => some ([], w)
  | n + 1, w =>
    let a := p.rand w
    let b := p.rand a.2
    match randomRect a.1 b.1 size sideLen with
    | none => none
    | some r =>
      match initRects p size sideLen n b.2 with
      | none => none
      | some (rs, w2) => some (r :: rs, w2)

/-- `runSingleThreadNoMutex(runner, numRects, updatePeriod, sideLen)`. -/
def runSingleThreadNoMutex {σ : Type} (p : Platform σ) (runner : Runner) (numRects : Nat)
    (updatePeriod sideLen : Int) (fuel : Nat) (w : σ) : Option (RunResult σ FrameState) :=
  let size : SDL_Point := { x := runner.width, y := runner.height }
  match initRects p size sideLen numRects w with
  | none => none
  | some (rects, w1) =>
    runner.run p (singleThreadFrame p size numRects updatePeriod) fuel w1
      { rects := rects, updateTime := 0 }

/-! ## Strategy (c): two threads, one mutex

`runMultiThreadedSingleMutex` runs `updateFn` on a second thread while the calling thread runs
`renderFn` once per frame. The two lambdas are embedded as a step machine over the memory they
share; a run is an interleaving of their steps, given as a list of `Action`s. One step is one
statement or one loop iteration, executed without interruption, and every step sees the memory
left by the step before it. `SDL_LockMutex` on a created mutex can only be stepped while no
thread holds the mutex; on a null handle it returns at once without locking, and
`SDL_UnlockMutex` on a null handle does nothing. -/

/-- The threads that take the mutex. -/
inductive Thread where
  | update
  | render
  deriving DecidableEq, Repr

/-- Program points of `updateFn`. -/
inductive UpdatePc where
  /-- `while (!SDL_AtomicGet(&quit))` -/
  | test
  /-- `SDL_LockMutex(mutex)` -/
  | lock
  /-- the `for` loop at index `i`: the test `i < numRects`, then `moveRect(updateRects[i], size)` -/
  | move (i : Nat)
  /-- `SDL_UnlockMutex(mutex)` -/
  | unlock
  /-- `SDL_Delay(updatePeriod)` -/
  | delay
  /-- the lambda has returned -/
  | done
  deriving DecidableEq, Repr

/-- Program points of the calling thread: `renderFn`, called once per iteration of
`Runner::run`, and the end of the run. -/
inductive RenderPc where
  /-- entry of `renderFn`: `SDL_LockMutex(mutex)` -/
  | lock
  /-- the `for` loop at index `i`: the test `i < numRects`, then
  `renderRects[i] = updateRects[i]` -/
  | copy (i : Nat)
  /-- `SDL_UnlockMutex(mutex)` -/
  | unlock
  /-- `fillRects(ren, renderRects, numRects)` -/
  | fill
  /-- `Runner::run` has returned and `SDL_AtomicSet(&quit, 1)` was executed -/
  | stopped
  deriving DecidableEq, Repr

/-- What is fixed during one run of `runMultiThreadedSingleMutex`: the domain size, the number
of objects, and whether `SDL_CreateMutex` and `SDL_CreateThread` returned a non-null handle. -/
structure Setup where
  size : SDL_Point
  numRects : Nat
  mutexCreated : Bool
  threadCreated : Bool
  deriving DecidableEq, Repr

/-- The memory shared by the two lambdas, their program points, and the record `drawn` of the
batches passed to `fillRects`, oldest first (`drawn` is not program state). -/
structure Shared where
  updateRects : List SDL_Rect
  renderRects : List SDL_Rect
  owner : Option Thread
  quit : Bool
  upc : UpdatePc
  rpc : RenderPc
  drawn : List (List SDL_Rect)
  deriving DecidableEq, Repr

/-- The state when both lambdas have been created: `quit` is `0`, nothing is locked. `renderRects`
is freshly allocated, its content is whatever `renderRects0` is. -/
def initShared (updateRects renderRects0 : List SDL_Rect) : Shared :=
  { updateRects := updateRects, renderRects := renderRects0, owner := none, quit := false,
    upc := UpdatePc.test, rpc := RenderPc.lock, drawn := [] }

/-- One step of `updateFn`. A thread waiting for the mutex does not move. -/
def updateFnStep (cfg : Setup) (s : Shared) : Option Shared :=
  match s.upc with
  | UpdatePc.test => some { s with upc := if s.quit then UpdatePc.done else UpdatePc.lock }
  | UpdatePc.lock =>
    if cfg.mutexCreated then
      if s.owner = none then some { s with owner := some Thread.update, upc := UpdatePc.move 0 }
      else some s
    else some { s with upc := UpdatePc.move 0 }
  | UpdatePc.move i =>
    if i < cfg.numRects then
      match moveAt cfg.size s.updateRects i with
      | none => none
      | some rects => some { s with updateRects := rects, upc := UpdatePc.move (i + 1) }
    else some { s with upc := UpdatePc.unlock }
  | UpdatePc.unlock =>
    some { s with owner := if cfg.mutexCreated then none else s.owner, upc := UpdatePc.delay }
  | UpdatePc.delay => some { s with upc := UpdatePc.test }
  | UpdatePc.done => some s

/-- One step of `renderFn`. Reading or writing outside an array has no defined result. -/
def renderFnStep (cfg : Setup) (s : Shared) : Option Shared :=
  match s.rpc with
  | RenderPc.lock =>
    if cfg.mutexCreated then
      if s.owner = none then some { s with owner := some Thread.render, rpc := RenderPc.copy 0 }
      else some s
    else some { s with rpc := RenderPc.copy 0 }
  | RenderPc.copy i =>
    if i < cfg.numRects then
      match s.updateRects[i]? with
      | none => none
      | some r =>
        if i < s.renderRects.length then
          some { s with renderRects := s.renderRects.set i r, rpc := RenderPc.copy (i + 1) }
        else none
    else some { s with rpc := RenderPc.unlock }
  | RenderPc.unlock =>
    some { s with owner := if cfg.mutexCreated then none else s.owner, rpc := RenderPc.fill }
  | RenderPc.fill =>
    some { s with drawn := s.drawn ++ [s.renderRects.take cfg.numRects], rpc := RenderPc.lock }
  | RenderPc.stopped => some s

/-- The calling thread leaves `Runner::run` (between two frames) and executes
`SDL_AtomicSet(&quit, 1)`. -/
def stopStep (s : Shared) : Shared :=
  if s.rpc = RenderPc.lock then { s with quit := true, rpc := RenderPc.stopped } else s

/-- Which thread moves next. -/
inductive Action where
  | update
  | render
  | stop
  deriving DecidableEq, Repr

/-- One step of the machine. Without a created thread `updateFn` never runs. -/
def step (cfg : Setup) (a : Action) (s : Shared) : Option Shared :=
  match a with
  | Action.update => if cfg.threadCreated then updateFnStep cfg s else some s
  | Action.render => renderFnStep cfg s
  | Action.stop => some (stopStep s)

/-- The state after the interleaving `schedule`. -/
def exec (cfg : Setup) : List Action → Shared → Option Shared
  | [], s => some s
  | a :: schedule, s =>
    match step cfg a s with
    | none => none
    | some s2 => exec cfg schedule s2

/-- What the update thread's program point says about the mutex and `updateRects`, where `cur` is
the collection after the update passes completed so far. -/
def UpdateInv (cfg : Setup) (cur : List SDL_Rect) (s : Shared) : Prop :=
  match s.upc with
  | UpdatePc.move i =>
    s.owner = some Thread.update ∧ i ≤ cfg.numRects ∧ MovedPrefix cfg.size i cur s.updateRects
  | UpdatePc.unlock =>
    s.owner = some Thread.update ∧ MovedPrefix cfg.size cfg.numRects cur s.updateRects
  | _ => s.owner ≠ some Thread.update ∧ s.updateRects = cur

/-- What the calling thread's program point says about the mutex and `renderRects`, where `g` is
the number of update passes completed so far, `cur` the collection after them and `ks` the pass
counts of the batches drawn so far. -/
def RenderInv (cfg : Setup) (rects0 : List SDL_Rect) (g : Nat) (cur : List SDL_Rect)
    (ks : List Nat) (s : Shared) : Prop :=
  match s.rpc with
  | RenderPc.copy i =>
    s.owner = some Thread.render ∧ i ≤ cfg.numRects ∧
      (∀ j, j < i → s.renderRects[j]? = cur[j]?) ∧ ∀ k ∈ ks, k ≤ g
  | RenderPc.unlock => s.owner = some Thread.render ∧ s.renderRects = cur ∧ ∀ k ∈ ks, k ≤ g
  | RenderPc.fill =>
    s.owner ≠ some Thread.render ∧
      ∃ k, k ≤ g ∧ advanceN cfg.size cfg.numRects k rects0 = some s.renderRects ∧
        ∀ k2 ∈ ks, k2 ≤ k
  | _ => s.owner ≠ some Thread.render ∧ ∀ k ∈ ks, k ≤ g

/-- Invariant of the machine when the mutex was created: `g` update passes are complete, the
thread in a critical section is the one holding the mutex, and every batch drawn is the
collection after some number of passes, these numbers never decreasing. -/
def Inv (cfg : Setup) (rects0 : List SDL_Rect) (s : Shared) : Prop :=
  ∃ (g : Nat) (cur : List SDL_Rect) (ks : List Nat),
    advanceN cfg.size cfg.numRects g rects0 = some cur ∧
    cur.length = cfg.numRects ∧
    s.renderRects.length = cfg.numRects ∧
    UpdateInv cfg cur s ∧
    RenderInv cfg rects0 g cur ks s ∧
    List.Forall₂ (fun k batch => advanceN cfg.size cfg.numRects k rects0 = some batch)
      ks s.drawn ∧
    ks.Pairwise (· ≤ ·)

/-! ## Fixtures for concrete runs -/

/-- A frame function that draws nothing and has no captured state. -/
def idleFrame (w : Nat) (c : Unit) : Option (Nat × Unit) := some (w, c)

/-- A platform whose world state is the number of `SDL_GetTicks` calls made so far: call number
`n` (from 0) reads `clock n`; no events arrive and drawing leaves the world alone. -/
def countedClock (clock : Nat → Int) : Platform Nat where
  getTicks := fun n => (clock n, n + 1)
  pollEvents := fun n => ([], n)
  renderPresent := fun n => n
  setRenderDrawColor := fun _ _ _ _ n => n
  renderClear := fun n => n
  renderFillRects := fun _ n => n
  rand := fun n => (0, n)

/-- A clock that advances 2 ms every 3 readings: with one reading per frame, 1500 frames per
second. -/
def fastFrames (n : Nat) : Int := 2 * (n : Int) / 3

/-- A platform whose world state is the clock: every `SDL_GetTicks` call returns it and every
`SDL_RenderPresent` advances it by `400` ms; each poll delivers the event types in `events`. -/
def steadyClock (events : List Nat) : Platform Int where
  getTicks := fun t => (t, t)
  pollEvents := fun t => (events, t)
  renderPresent := fun t => t + 400
  setRenderDrawColor := fun _ _ _ _ t => t
  renderClear := fun t => t
  renderFillRects := fun _ t => t
  rand := fun t => (0, t)

/-- The runner of `main`: a `640 × 640` window, 5000 ms per run. -/
def sampleRunner : Runner := { width := 640, height := 640, duration := 5000, quit := false }

/-- A frame function that counts its calls in its captured state. -/
def countingFrame (w : Int) (c : Nat) : Option (Int × Nat) := some (w, c + 1)

/-- Two objects in the `640 × 640` domain. -/
def twoRects : List SDL_Rect :=
  [{ x := 0, y := 0, w := 3, h := 3 }, { x := 10, y := 10, w := 3, h := 3 }]

/-- Content of a freshly allocated array of two rectangles. -/
def blankRects : List SDL_Rect :=
  [{ x := 0, y := 0, w := 0, h := 0 }, { x := 0, y := 0, w := 0, h := 0 }]

/-- An interleaving in which `renderFn` copies object 0, `updateFn` then starts a pass and moves
both objects, and `renderFn` then copies object 1, unlocks and draws. -/
def midCopySchedule : List Action :=
  [Action.render, Action.render, Action.update, Action.update, Action.update, Action.update,
   Action.render, Action.render, Action.render, Action.render]

/-- An interleaving with one frame drawn before the first update pass and one after it. -/
def twoFrameSchedule : List Action :=
  [Action.render, Action.render, Action.render, Action.render, Action.render, Action.render,
   Action.update, Action.update, Action.update, Action.update, Action.update, Action.update,
   Action.render, Action.render, Action.render, Action.render, Action.render, Action.render]

/-- Two objects in a `640 × 640` domain, mutex and thread both created. -/
def lockedSetup : Setup :=
  { size := { x := 640, y := 640 }, numRects := 2, mutexCreated := true, threadCreated := true }

/-- The same run when `SDL_CreateMutex` returned null and the thread was created. -/
def nullMutexSetup : Setup :=
  { size := { x := 640, y := 640 }, numRects := 2, mutexCreated := false, threadCreated := true }

/-- The same run when `SDL_CreateMutex` and `SDL_CreateThread` both returned null. -/
def nullThreadSetup : Setup :=
  { size := { x := 640, y := 640 }, numRects := 2, mutexCreated := false,
    threadCreated := false }

/-- Three objects in a `640 × 640` domain. -/
def threeRects : List SDL_Rect :=
  [{ x := 639, y := 0, w := 3, h := 3 }, { x := 10, y := 20, w := 3, h := 3 },
   { x := 5, y := 639, w := 3, h := 3 }]

/-! ## Machine integer lemmas -/

theorem wrapInt32_of_range {v : Int} (h : IsInt32 v) : wrapInt32 v = v := by
  unfold IsInt32 at h
  unfold wrapInt32
  omega

theorem isInt32_wrapInt32 (v : Int) : IsInt32 (wrapInt32 v) := by
  unfold IsInt32 wrapInt32
  omega

theorem cRem_pos {a b : Int} (ha : 0 ≤ a) (hb : 0 < b) (hb2 : b < 2147483648) :
    cRem a b = some (a % b) := by
  have hne : b ≠ 0 := by omega
  have h1 : Int.tmod a b = a % b := Int.tmod_eq_emod ha (le_of_lt hb)
  have h2 : 0 ≤ a % b := Int.emod_nonneg a hne
  have h3 : a % b < b := Int.emod_lt_of_pos a hb
  unfold cRem
  rw [if_neg hne, if_neg (by omega), h1, wrapInt32_of_range ⟨by omega, by omega⟩]

/-! ## Geometry lemmas -/

theorem moveRect_eq_some {rect : SDL_Rect} {size : SDL_Point}
    (hW : 0 < size.x) (hH : 0 < size.y) (hWr : size.x < 2147483648) (hHr : size.y < 2147483648)
    (hx : 0 ≤ rect.x ∧ rect.x < size.x) (hy : 0 ≤ rect.y ∧ rect.y < size.y) :
    moveRect rect size =
      some { x := (rect.x + 1) % size.x, y := (rect.y + 1) % size.y, w := rect.w, h := rect.h } := by
  have w1 : wrapInt32 (rect.x + 1) = rect.x + 1 := wrapInt32_of_range ⟨by omega, by omega⟩
  have w2 : wrapInt32 (rect.y + 1) = rect.y + 1 := wrapInt32_of_range ⟨by omega, by omega⟩
  unfold moveRect
  rw [w1, w2, cRem_pos (by omega) hW hWr, cRem_pos (by omega) hH hHr]

theorem moveRectN_eq_some (n : Nat) : ∀ {rect : SDL_Rect} {size : SDL_Point},
    0 < size.x → 0 < size.y → size.x < 2147483648 → size.y < 2147483648 →
    (0 ≤ rect.x ∧ rect.x < size.x) → (0 ≤ rect.y ∧ rect.y < size.y) →
    moveRectN n rect size =
      some { x := (rect.x + n) % size.x, y := (rect.y + n) % size.y, w := rect.w, h := rect.h } := by
  induction n with
  | zero =>
    intro rect size hW hH _ _ hx hy
    simp only [moveRectN, Nat.cast_zero, add_zero]
    rw [Int.emod_eq_of_lt hx.1 hx.2, Int.emod_eq_of_lt hy.1 hy.2]
  | succ n ih =>
    intro rect size hW hH hWr hHr hx hy
    have hWne : size.x ≠ 0 := by omega
    have hHne : size.y ≠ 0 := by omega
    simp only [moveRectN, moveRect_eq_some hW hH hWr hHr hx hy]
    rw [ih hW hH hWr hHr
      ⟨Int.emod_nonneg _ hWne, Int.emod_lt_of_pos _ hW⟩
      ⟨Int.emod_nonneg _ hHne, Int.emod_lt_of_pos _ hH⟩]
    simp only [Int.emod_add_emod, Nat.cast_succ]
    congr 2 <;> ring_nf

/-! ## Motion rule (claims C3, C4, C5) -/

/-- C3: in a domain of positive size `(W, H)` and for an object with `0 ≤ x < W` and `0 ≤ y < H`,
`moveRect` sets `x` to `(x + 1) mod W` and `y` to `(y + 1) mod H`, which is the coordinate plus one
or `0` when the coordinate plus one reaches the domain size, and leaves `w` and `h` unchanged. -/
theorem moveRect_increments_and_wraps (rect : SDL_Rect) (size : SDL_Point)
    (hW : 0 < size.x) (hH : 0 < size.y) (hWr : IsInt32 size.x) (hHr : IsInt32 size.y)
    (hx : 0 ≤ rect.x ∧ rect.x < size.x) (hy : 0 ≤ rect.y ∧ rect.y < size.y) :
    moveRect rect size =
        some { x := (rect.x + 1) % size.x, y := (rect.y + 1) % size.y,
               w := rect.w, h := rect.h } ∧
      (rect.x + 1) % size.x = (if rect.x + 1 = size.x then 0 else rect.x + 1) ∧
      (rect.y + 1) % size.y = (if rect.y + 1 = size.y then 0 else rect.y + 1) := by
  refine ⟨moveRect_eq_some hW hH hWr.2 hHr.2 hx hy, ?_, ?_⟩
  · split_ifs with h
    · rw [h]; exact Int.emod_self
    · exact Int.emod_eq_of_lt (by omega) (by omega)
  · split_ifs with h
    · rw [h]; exact Int.emod_self
    · exact Int.emod_eq_of_lt (by omega) (by omega)

theorem moveRect_increments_and_wraps_witness :
    moveRect { x := 639, y := 5, w := 3, h := 3 } { x := 640, y := 640 } =
        some { x := (639 + 1) % 640, y := (5 + 1) % 640, w := 3, h := 3 } ∧
      ((639 : Int) + 1) % 640 = (if (639 : Int) + 1 = 640 then 0 else 639 + 1) ∧
      ((5 : Int) + 1) % 640 = (if (5 : Int) + 1 = 640 then 0 else 5 + 1) :=
  moveRect_increments_and_wraps { x := 639, y := 5, w := 3, h := 3 } { x := 640, y := 640 }
    (by decide) (by decide) (by decide) (by decide) (by decide) (by decide)

/-- C4: in a domain of positive size `W × H` and for a position inside it, `W` applications of
`moveRect` bring `x` back to its value, `H` applications bring `y` back to its value, and in a
square domain (`W = H`) that many applications bring the whole rectangle back. -/
theorem moveRect_full_cycle (W H : Nat) (rect : SDL_Rect)
    (hW : 0 < W) (hH : 0 < H) (hWr : IsInt32 W) (hHr : IsInt32 H)
    (hx : 0 ≤ rect.x ∧ rect.x < W) (hy : 0 ≤ rect.y ∧ rect.y < H) :
    (∃ r, moveRectN W rect { x := W, y := H } = some r ∧ r.x = rect.x) ∧
      (∃ r, moveRectN H rect { x := W, y := H } = some r ∧ r.y = rect.y) ∧
      (W = H → moveRectN W rect { x := W, y := H } = some rect) := by
  have hW2 : (0 : Int) < (W : Int) := by exact_mod_cast hW
  have hH2 : (0 : Int) < (H : Int) := by exact_mod_cast hH
  have h : ∀ n : Nat, moveRectN n rect { x := W, y := H } =
      some { x := (rect.x + n) % W, y := (rect.y + n) % H, w := rect.w, h := rect.h } :=
    fun n => @moveRectN_eq_some n rect { x := W, y := H } hW2 hH2 hWr.2 hHr.2 hx hy
  have ex : (rect.x + W) % W = rect.x := by
    rw [Int.add_emod_self]
    exact Int.emod_eq_of_lt hx.1 hx.2
  have ey : (rect.y + H) % H = rect.y := by
    rw [Int.add_emod_self]
    exact Int.emod_eq_of_lt hy.1 hy.2
  refine ⟨⟨_, h W, ex⟩, ⟨_, h H, ey⟩, fun e => ?_⟩
  rw [h W, ex]
  have ey2 : (rect.y + W) % H = rect.y := by rw [e]; exact ey
  rw [ey2]

theorem moveRect_full_cycle_witness :
    (∃ r, moveRectN 640 { x := 17, y := 600, w := 3, h := 3 }
        { x := (640 : Nat), y := (640 : Nat) } = some r ∧ r.x = 17) ∧
      (∃ r, moveRectN 640 { x := 17, y := 600, w := 3, h := 3 }
        { x := (640 : Nat), y := (640 : Nat) } = some r ∧ r.y = 600) ∧
      (640 = 640 → moveRectN 640 { x := 17, y := 600, w := 3, h := 3 }
        { x := (640 : Nat), y := (640 : Nat) } = some { x := 17, y := 600, w := 3, h := 3 }) :=
  moveRect_full_cycle 640 640 { x := 17, y := 600, w := 3, h := 3 }
    (by decide) (by decide) (by decide) (by decide) (by decide) (by decide)

/-- C5 as stated fails: in a `10 × 10` domain with side length `3`, the object that `randomRect`
places at `(0, 0)` is at `x = 8 > 10 - 3` after eight applications of `moveRect`. -/
theorem position_escapes_inset_counterexample :
    randomRect 0 0 { x := 10, y := 10 } 3 = some { x := 0, y := 0, w := 3, h := 3 } ∧
      moveRectN 8 { x := 0, y := 0, w := 3, h := 3 } { x := 10, y := 10 } =
        some { x := 8, y := 8, w := 3, h := 3 } ∧
      ¬ ((8 : Int) ≤ 10 - 3) := by
  refine ⟨by decide, by decide, by decide⟩

/-- C5, amended: for an object created by `randomRect` in a domain `(W, H)` with side length
`side`, `W, H > side > 0`, the initial position satisfies `0 ≤ x < W - side` and
`0 ≤ y < H - side`, and after any number `n` of `moveRect` applications `0 ≤ x ≤ W - 1` and
`0 ≤ y ≤ H - 1`, with the side length unchanged. -/
theorem position_stays_in_domain (r1 r2 : Int) (size : SDL_Point) (side : Int) (n : Nat)
    (hr1 : 0 ≤ r1) (hr2 : 0 ≤ r2) (hside : 0 < side)
    (hW : side < size.x) (hH : side < size.y) (hWr : IsInt32 size.x) (hHr : IsInt32 size.y) :
    ∃ r0 r, randomRect r1 r2 size side = some r0 ∧
      (0 ≤ r0.x ∧ r0.x < size.x - side ∧ 0 ≤ r0.y ∧ r0.y < size.y - side) ∧
      moveRectN n r0 size = some r ∧
      (0 ≤ r.x ∧ r.x ≤ size.x - 1 ∧ 0 ≤ r.y ∧ r.y ≤ size.y - 1) ∧
      r.w = side ∧ r.h = side := by
  have hWr2 := hWr.2
  have hHr2 := hHr.2
  have dx : wrapInt32 (size.x - side) = size.x - side := wrapInt32_of_range ⟨by omega, by omega⟩
  have dy : wrapInt32 (size.y - side) = size.y - side := wrapInt32_of_range ⟨by omega, by omega⟩
  have hdx : 0 < size.x - side := by omega
  have hdy : 0 < size.y - side := by omega
  have x0 : 0 ≤ r1 % (size.x - side) := Int.emod_nonneg _ (by omega)
  have x1 : r1 % (size.x - side) < size.x - side := Int.emod_lt_of_pos _ hdx
  have y0 : 0 ≤ r2 % (size.y - side) := Int.emod_nonneg _ (by omega)
  have y1 : r2 % (size.y - side) < size.y - side := Int.emod_lt_of_pos _ hdy
  have hrand : randomRect r1 r2 size side =
      some { x := r1 % (size.x - side), y := r2 % (size.y - side), w := side, h := side } := by
    unfold randomRect
    rw [dx, dy, cRem_pos hr1 hdx (by omega), cRem_pos hr2 hdy (by omega)]
  have hsx : (0 : Int) < size.x := by omega
  have hsy : (0 : Int) < size.y := by omega
  have hmove := @moveRectN_eq_some n
    { x := r1 % (size.x - side), y := r2 % (size.y - side), w := side, h := side } size
    hsx hsy hWr2 hHr2 ⟨x0, by simp only; omega⟩ ⟨y0, by simp only; omega⟩
  refine ⟨_, _, hrand, ⟨x0, x1, y0, y1⟩, hmove, ⟨?_, ?_, ?_, ?_⟩, rfl, rfl⟩
  · exact Int.emod_nonneg _ (by omega)
  · have := Int.emod_lt_of_pos (r1 % (size.x - side) + (n : Int)) hsx
    simp only; omega
  · exact Int.emod_nonneg _ (by omega)
  · have := Int.emod_lt_of_pos (r2 % (size.y - side) + (n : Int)) hsy
    simp only; omega

theorem position_stays_in_domain_witness :
    ∃ r0 r, randomRect 1000 77 { x := 640, y := 640 } 3 = some r0 ∧
      (0 ≤ r0.x ∧ r0.x < 640 - 3 ∧ 0 ≤ r0.y ∧ r0.y < 640 - 3) ∧
      moveRectN 900 r0 { x := 640, y := 640 } = some r ∧
      (0 ≤ r.x ∧ r.x ≤ 640 - 1 ∧ 0 ≤ r.y ∧ r.y ≤ 640 - 1) ∧
      r.w = 3 ∧ r.h = 3 :=
  position_stays_in_domain 1000 77 { x := 640, y := 640 } 3 900
    (by decide) (by decide) (by decide) (by decide) (by decide) (by decide) (by decide)

/-! ## Statistical reducer (claim C1) -/

theorem accumulate_eq_sum (l : List Int) : ∀ acc : Int, 0 ≤ acc → (∀ v ∈ l, 0 ≤ v) →
    acc + l.sum < 2147483648 → accumulate l acc = acc + l.sum := by
  induction l with
  | nil => intro acc _ _ _; simp [accumulate]
  | cons a l ih =>
    intro acc hacc hpos hsum
    have ha : 0 ≤ a := hpos a (List.mem_cons_self a l)
    have hl : 0 ≤ l.sum := List.sum_nonneg (fun v hv => hpos v (List.mem_cons_of_mem a hv))
    rw [List.sum_cons] at hsum
    have hw : wrapInt32 (acc + a) = acc + a := wrapInt32_of_range ⟨by omega, by omega⟩
    have step : accumulate (a :: l) acc = accumulate l (wrapInt32 (acc + a)) := by
      simp [accumulate]
    rw [step, hw, ih (acc + a) (by omega) (fun v hv => hpos v (List.mem_cons_of_mem a hv))
      (by omega), List.sum_cons]
    ring

/-- C1: for a series of at least two non-negative samples whose sum fits an `int`,
`avgMinExcluded` returns the sum of the samples with one occurrence of the minimum `m` erased,
divided by `n - 1` with truncation; and `avgMinExcluded([10, 1, 7, 4]) = 7`. -/
theorem avgMinExcluded_drops_one_minimum (vals : List Int) (hn : 2 ≤ vals.length)
    (hpos : ∀ v ∈ vals, 0 ≤ v) (hsum : vals.sum < 2147483648) :
    (∃ m, m ∈ vals ∧ (∀ v ∈ vals, m ≤ v) ∧
        avgMinExcluded vals =
          some (Int.tdiv (vals.erase m).sum ((vals.length : Int) - 1))) ∧
      avgMinExcluded [10, 1, 7, 4] = some 7 := by
  refine ⟨?_, by decide⟩
  have hperm : (sort vals).Perm vals := List.perm_insertionSort _ vals
  have hsorted : (sort vals).Sorted (· ≤ ·) := List.sorted_insertionSort _ vals
  have hlen : (sort vals).length = vals.length := hperm.length_eq
  cases hs : sort vals with
  | nil => rw [hs] at hlen; simp at hlen; omega
  | cons m rest =>
    rw [hs] at hperm hsorted
    have hm : m ∈ vals := hperm.subset (List.mem_cons_self m rest)
    have hmin : ∀ v ∈ vals, m ≤ v := by
      intro v hv
      have hv2 : v ∈ m :: rest := hperm.symm.subset hv
      rcases List.mem_cons.mp hv2 with h | h
      · exact le_of_eq h.symm
      · exact (List.sorted_cons.mp hsorted).1 v h
    have hrest : rest.Perm (vals.erase m) := by
      have := List.Perm.erase m hperm
      rwa [List.erase_cons_head] at this
    have hrsum : rest.sum = (vals.erase m).sum := hrest.sum_eq
    have hrpos : ∀ v ∈ rest, 0 ≤ v :=
      fun v hv => hpos v (hperm.subset (List.mem_cons_of_mem m hv))
    have htotal : vals.sum = m + rest.sum := by
      rw [← hperm.sum_eq, List.sum_cons]
    have hm0 : 0 ≤ m := hpos m hm
    have hr0 : 0 ≤ rest.sum := List.sum_nonneg hrpos
    have hacc : accumulate rest 0 = rest.sum := by
      rw [accumulate_eq_sum rest 0 (le_refl 0) hrpos (by omega)]
      ring
    have hdiv : (1 : Int) ≤ (vals.length : Int) - 1 := by
      have : (2 : Int) ≤ (vals.length : Int) := by exact_mod_cast hn
      omega
    have hq0 : 0 ≤ rest.sum / ((vals.length : Int) - 1) := Int.ediv_nonneg hr0 (by omega)
    have hq1 : rest.sum / ((vals.length : Int) - 1) ≤ rest.sum :=
      Int.ediv_le_self _ hr0
    have hsz : toSizeT rest.sum = rest.sum := by
      unfold toSizeT
      exact Int.emod_eq_of_lt hr0 (by omega)
    refine ⟨m, hm, hmin, ?_⟩
    unfold avgMinExcluded
    rw [hs]
    simp only
    rw [if_neg (by omega), hacc, hsz, wrapInt32_of_range ⟨by omega, by omega⟩, ← hrsum,
      Int.tdiv_eq_ediv hr0 (by omega)]

theorem avgMinExcluded_drops_one_minimum_witness :
    (∃ m, m ∈ [60, 58, 61, 59] ∧ (∀ v ∈ [60, 58, 61, 59], m ≤ v) ∧
        avgMinExcluded [60, 58, 61, 59] =
          some (Int.tdiv ([60, 58, 61, 59].erase m).sum ((([60, 58, 61, 59] : List Int).length : Int) - 1))) ∧
      avgMinExcluded [10, 1, 7, 4] = some 7 :=
  avgMinExcluded_drops_one_minimum [60, 58, 61, 59] (by decide) (by decide) (by decide)

/-! ## Update pass (claim C9) -/

theorem advanceInOrder_cons (size : SDL_Point) (i : Nat) (order : List Nat)
    (rects : List SDL_Rect) :
    advanceInOrder size (i :: order) rects =
      (moveAt size rects i).bind (advanceInOrder size order) := by
  cases h : moveAt size rects i <;> simp [advanceInOrder, h]

theorem advanceInOrder_append (size : SDL_Point) (a b : List Nat) :
    ∀ rects : List SDL_Rect, advanceInOrder size (a ++ b) rects =
      (advanceInOrder size a rects).bind (advanceInOrder size b) := by
  induction a with
  | nil => intro rects; simp [advanceInOrder]
  | cons i a ih =>
    intro rects
    rw [List.cons_append, advanceInOrder_cons, advanceInOrder_cons]
    cases h : moveAt size rects i with
    | none => simp
    | some r => simp [ih r]

theorem moveAt_of_index_none {size : SDL_Point} {rects : List SDL_Rect} {i : Nat}
    (hi : rects[i]? = none) : moveAt size rects i = none := by
  unfold moveAt
  rw [hi]

theorem moveAt_of_move_none {size : SDL_Point} {rects : List SDL_Rect} {i : Nat} {r : SDL_Rect}
    (hi : rects[i]? = some r) (hm : moveRect r size = none) : moveAt size rects i = none := by
  unfold moveAt
  rw [hi]
  simp only
  rw [hm]

theorem moveAt_of_move_some {size : SDL_Point} {rects : List SDL_Rect} {i : Nat}
    {r r2 : SDL_Rect} (hi : rects[i]? = some r) (hm : moveRect r size = some r2) :
    moveAt size rects i = some (rects.set i r2) := by
  unfold moveAt
  rw [hi]
  simp only
  rw [hm]

theorem moveAt_eq_some {size : SDL_Point} {rects out : List SDL_Rect} {i : Nat}
    (h : moveAt size rects i = some out) :
    ∃ r r2, rects[i]? = some r ∧ moveRect r size = some r2 ∧ out = rects.set i r2 := by
  cases hi : rects[i]? with
  | none => rw [moveAt_of_index_none hi] at h; simp at h
  | some r =>
    cases hm : moveRect r size with
    | none => rw [moveAt_of_move_none hi hm] at h; simp at h
    | some r2 =>
      rw [moveAt_of_move_some hi hm] at h
      simp only [Option.some.injEq] at h
      exact ⟨r, r2, rfl, hm, h.symm⟩

theorem moveAt_length {size : SDL_Point} {rects out : List SDL_Rect} {i : Nat}
    (h : moveAt size rects i = some out) : out.length = rects.length := by
  obtain ⟨r, r2, _, _, rfl⟩ := moveAt_eq_some h
  exact List.length_set _ _ _

theorem advanceInOrder_length (size : SDL_Point) (order : List Nat) :
    ∀ rects out : List SDL_Rect, advanceInOrder size order rects = some out →
      out.length = rects.length := by
  induction order with
  | nil => intro rects out h; simp [advanceInOrder] at h; rw [← h]
  | cons i order ih =>
    intro rects out h
    rw [advanceInOrder_cons] at h
    cases hm : moveAt size rects i with
    | none => rw [hm] at h; simp at h
    | some r =>
      rw [hm] at h
      simp only [Option.some_bind] at h
      rw [ih r out h, moveAt_length hm]

theorem moveAt_comm (size : SDL_Point) (rects : List SDL_Rect) (i j : Nat) :
    (moveAt size rects i).bind (fun r => moveAt size r j) =
      (moveAt size rects j).bind (fun r => moveAt size r i) := by
  by_cases hij : i = j
  · subst hij; rfl
  · have hji : j ≠ i := fun h => hij h.symm
    cases hi : rects[i]? with
    | none =>
      rw [moveAt_of_index_none hi]
      cases hj : rects[j]? with
      | none => rw [moveAt_of_index_none hj]; rfl
      | some rj =>
        cases hmj : moveRect rj size with
        | none => rw [moveAt_of_move_none hj hmj]; rfl
        | some rj2 =>
          rw [moveAt_of_move_some hj hmj]
          simp only [Option.none_bind, Option.some_bind]
          rw [moveAt_of_index_none (by rw [List.getElem?_set_ne hji]; exact hi)]
    | some ri =>
      cases hmi : moveRect ri size with
      | none =>
        rw [moveAt_of_move_none hi hmi]
        cases hj : rects[j]? with
        | none => rw [moveAt_of_index_none hj]; rfl
        | some rj =>
          cases hmj : moveRect rj size with
          | none => rw [moveAt_of_move_none hj hmj]; rfl
          | some rj2 =>
            rw [moveAt_of_move_some hj hmj]
            simp only [Option.none_bind, Option.some_bind]
            rw [moveAt_of_move_none (by rw [List.getElem?_set_ne hji]; exact hi) hmi]
      | some ri2 =>
        rw [moveAt_of_move_some hi hmi]
        simp only [Option.some_bind]
        cases hj : rects[j]? with
        | none =>
          rw [moveAt_of_index_none hj,
            moveAt_of_index_none (by rw [List.getElem?_set_ne hij]; exact hj)]
          rfl
        | some rj =>
          cases hmj : moveRect rj size with
          | none =>
            rw [moveAt_of_move_none hj hmj,
              moveAt_of_move_none (by rw [List.getElem?_set_ne hij]; exact hj) hmj]
            rfl
          | some rj2 =>
            rw [moveAt_of_move_some hj hmj,
              moveAt_of_move_some (by rw [List.getElem?_set_ne hij]; exact hj) hmj]
            simp only [Option.some_bind]
            rw [moveAt_of_move_some (by rw [List.getElem?_set_ne hji]; exact hi) hmi,
              List.set_comm _ _ _ hij]

theorem advanceInOrder_swap (size : SDL_Point) (i j : Nat) (l : List Nat)
    (rects : List SDL_Rect) :
    advanceInOrder size (i :: j :: l) rects = advanceInOrder size (j :: i :: l) rects := by
  have e : ∀ a b : Nat, advanceInOrder size (a :: b :: l) rects =
      ((moveAt size rects a).bind (fun r => moveAt size r b)).bind (advanceInOrder size l) := by
    intro a b
    rw [advanceInOrder_cons]
    cases moveAt size rects a with
    | none => rfl
    | some r => simp only [Option.some_bind]; rw [advanceInOrder_cons]
  rw [e i j, e j i, moveAt_comm]

theorem advanceInOrder_perm (size : SDL_Point) {a b : List Nat} (h : a.Perm b) :
    ∀ rects : List SDL_Rect, advanceInOrder size a rects = advanceInOrder size b rects := by
  induction h with
  | nil => intro rects; rfl
  | cons i _ ih =>
    intro rects
    rw [advanceInOrder_cons, advanceInOrder_cons]
    cases hm : moveAt size rects i with
    | none => rfl
    | some r => simp only [Option.some_bind]; exact ih r
  | swap i j l => intro rects; exact advanceInOrder_swap size j i l rects
  | trans _ _ ih1 ih2 => intro rects; rw [ih1 rects, ih2 rects]

theorem movedPrefix_zero_iff (size : SDL_Point) (rects out : List SDL_Rect) :
    MovedPrefix size 0 rects out ↔ out = rects := by
  constructor
  · intro h
    apply List.ext_getElem?
    intro j
    exact (h.2 j).2 (Nat.zero_le j)
  · intro h
    subst h
    exact ⟨rfl, fun j => ⟨fun hj => absurd hj (Nat.not_lt_zero j), fun _ => rfl⟩⟩

theorem movedPrefix_step {size : SDL_Point} {k : Nat} {rects mid : List SDL_Rect}
    {r r2 : SDL_Rect} (h : MovedPrefix size k rects mid) (hr : rects[k]? = some r)
    (hm : moveRect r size = some r2) : MovedPrefix size (k + 1) rects (mid.set k r2) := by
  have hk : k < rects.length := by
    by_contra hc
    rw [List.getElem?_eq_none (by omega)] at hr
    cases hr
  refine ⟨by rw [List.length_set]; exact h.1, fun j => ⟨fun hj hl => ?_, fun hj => ?_⟩⟩
  · by_cases hjk : j = k
    · subst hjk
      exact ⟨r, r2, hr, List.getElem?_set_self (by rw [h.1]; exact hk), hm⟩
    · obtain ⟨a, a2, h1, h2, h3⟩ := (h.2 j).1 (by omega) hl
      refine ⟨a, a2, h1, ?_, h3⟩
      rw [List.getElem?_set_ne (fun e => hjk e.symm)]
      exact h2
  · rw [List.getElem?_set_ne (by omega)]
    exact (h.2 j).2 (by omega)

theorem movedPrefix_index {size : SDL_Point} {k : Nat} {rects mid : List SDL_Rect}
    (h : MovedPrefix size k rects mid) : mid[k]? = rects[k]? :=
  (h.2 k).2 (le_refl k)

theorem advanceInOrder_singleton (size : SDL_Point) (k : Nat) (rects : List SDL_Rect) :
    advanceInOrder size [k] rects = moveAt size rects k := by
  rw [advanceInOrder_cons]
  cases moveAt size rects k with
  | none => rfl
  | some r => rfl

theorem advanceInOrder_range_succ (size : SDL_Point) (k : Nat) (rects : List SDL_Rect) :
    advanceInOrder size (List.range (k + 1)) rects =
      (advanceInOrder size (List.range k) rects).bind (fun mid => moveAt size mid k) := by
  rw [List.range_succ, advanceInOrder_append]
  cases advanceInOrder size (List.range k) rects with
  | none => rfl
  | some mid => simp only [Option.some_bind]; exact advanceInOrder_singleton size k mid

theorem movedPrefix_of_advance (size : SDL_Point) (rects : List SDL_Rect) :
    ∀ k : Nat, ∀ out : List SDL_Rect, advanceInOrder size (List.range k) rects = some out →
      MovedPrefix size k rects out ∧ k ≤ rects.length := by
  intro k
  induction k with
  | zero =>
    intro out h
    simp only [List.range_zero, advanceInOrder, Option.some.injEq] at h
    exact ⟨(movedPrefix_zero_iff size rects out).2 h.symm, Nat.zero_le _⟩
  | succ k ih =>
    intro out h
    rw [advanceInOrder_range_succ] at h
    cases hmid : advanceInOrder size (List.range k) rects with
    | none => rw [hmid] at h; cases h
    | some mid =>
      rw [hmid] at h
      simp only [Option.some_bind] at h
      obtain ⟨r, r2, h1, h2, rfl⟩ := moveAt_eq_some h
      have hp := (ih mid hmid).1
      rw [movedPrefix_index hp] at h1
      have hk : k < rects.length := by
        by_contra hc
        rw [List.getElem?_eq_none (by omega)] at h1
        cases h1
      exact ⟨movedPrefix_step hp h1 h2, hk⟩

theorem advance_of_movedPrefix (size : SDL_Point) (rects : List SDL_Rect) :
    ∀ k : Nat, k ≤ rects.length → ∀ out : List SDL_Rect, MovedPrefix size k rects out →
      advanceInOrder size (List.range k) rects = some out := by
  intro k
  induction k with
  | zero =>
    intro _ out h
    rw [(movedPrefix_zero_iff size rects out).1 h]
    rfl
  | succ k ih =>
    intro hk out h
    obtain ⟨r, r2, h1, h2, h3⟩ := (h.2 k).1 (Nat.lt_succ_self k) (by omega)
    have hmid : MovedPrefix size k rects (out.set k r) := by
      refine ⟨by rw [List.length_set]; exact h.1, fun j => ⟨fun hj hl => ?_, fun hj => ?_⟩⟩
      · obtain ⟨a, a2, e1, e2, e3⟩ := (h.2 j).1 (by omega) hl
        refine ⟨a, a2, e1, ?_, e3⟩
        rw [List.getElem?_set_ne (by omega)]
        exact e2
      · by_cases hjk : j = k
        · subst hjk
          rw [List.getElem?_set_self (by rw [h.1]; omega), h1]
        · rw [List.getElem?_set_ne (fun e => hjk e.symm)]
          exact (h.2 j).2 (by omega)
    rw [advanceInOrder_range_succ, ih (by omega) _ hmid]
    simp only [Option.some_bind]
    have hidx : (out.set k r)[k]? = some r := List.getElem?_set_self (by rw [h.1]; omega)
    rw [moveAt_of_move_some hidx h3, List.set_set]
    congr 1
    apply List.ext_getElem?
    intro j
    by_cases hjk : j = k
    · subst hjk
      rw [List.getElem?_set_self (by rw [h.1]; omega), h2]
    · rw [List.getElem?_set_ne (fun e => hjk e.symm)]

theorem movedPrefix_full_iff_forall₂ (size : SDL_Point) (rects out : List SDL_Rect) :
    MovedPrefix size rects.length rects out ↔
      List.Forall₂ (fun r r2 => moveRect r size = some r2) rects out := by
  rw [List.forall₂_iff_get]
  constructor
  · intro h
    refine ⟨h.1.symm, fun i h1 h2 => ?_⟩
    obtain ⟨r, r2, e1, e2, e3⟩ := (h.2 i).1 h1 h1
    rw [List.getElem?_eq_getElem h1] at e1
    rw [List.getElem?_eq_getElem h2] at e2
    simp only [Option.some.injEq] at e1 e2
    simp only [List.get_eq_getElem]
    rw [e1, e2]
    exact e3
  · intro h
    refine ⟨h.1.symm, fun j => ⟨fun hj _ => ?_, fun hj => ?_⟩⟩
    · have hj2 : j < out.length := by rw [← h.1]; exact hj
      exact ⟨rects[j], out[j], List.getElem?_eq_getElem hj, List.getElem?_eq_getElem hj2,
        h.2 j hj hj2⟩
    · rw [List.getElem?_eq_none (by rw [← h.1]; exact hj), List.getElem?_eq_none hj]

theorem moveAll_eq_some_iff (size : SDL_Point) (rects out : List SDL_Rect) :
    moveAll size rects.length rects = some out ↔
      List.Forall₂ (fun r r2 => moveRect r size = some r2) rects out := by
  rw [← movedPrefix_full_iff_forall₂]
  exact ⟨fun h => (movedPrefix_of_advance size rects _ out h).1,
    fun h => advance_of_movedPrefix size rects _ (le_refl _) out h⟩

/-- C9: advancing the objects in the order of any permutation of the indices gives the same
result as the index-order pass `0 .. n-1`; that pass succeeds with result `out` exactly when
`out` holds, index for index, the `moveRect` result of the object at that index (each object
advanced once, from its own value and the domain size only); a pass split into two parts is the
first part followed by the second; and the length of the collection is unchanged. -/
theorem update_pass_order_independent (size : SDL_Point) (rects : List SDL_Rect)
    (order : List Nat) (hperm : order.Perm (List.range rects.length)) :
    advanceInOrder size order rects = moveAll size rects.length rects ∧
      (∀ out, moveAll size rects.length rects = some out ↔
        List.Forall₂ (fun r r2 => moveRect r size = some r2) rects out) ∧
      (∀ a b : List Nat, order = a ++ b →
        advanceInOrder size order rects =
          (advanceInOrder size a rects).bind (advanceInOrder size b)) ∧
      (∀ out, advanceInOrder size order rects = some out → out.length = rects.length) := by
  refine ⟨advanceInOrder_perm size hperm rects, moveAll_eq_some_iff size rects, ?_, ?_⟩
  · intro a b e
    rw [e]
    exact advanceInOrder_append size a b rects
  · intro out h
    exact advanceInOrder_length size order rects out h

theorem update_pass_order_independent_witness :
    advanceInOrder { x := 640, y := 640 } [2, 0, 1] threeRects =
        moveAll { x := 640, y := 640 } threeRects.length threeRects ∧
      (∀ out, moveAll { x := 640, y := 640 } threeRects.length threeRects = some out ↔
        List.Forall₂ (fun r r2 => moveRect r { x := 640, y := 640 } = some r2) threeRects out) ∧
      (∀ a b : List Nat, [2, 0, 1] = a ++ b →
        advanceInOrder { x := 640, y := 640 } [2, 0, 1] threeRects =
          (advanceInOrder { x := 640, y := 640 } a threeRects).bind
            (advanceInOrder { x := 640, y := 640 } b)) ∧
      (∀ out, advanceInOrder { x := 640, y := 640 } [2, 0, 1] threeRects = some out →
        out.length = threeRects.length) :=
  update_pass_order_independent { x := 640, y := 640 } threeRects [2, 0, 1] (by decide)

/-- An update pass in the order `2, 0, 1` and the pass in index order on three objects, two of
them on the last column or row of the domain. -/
theorem update_pass_example :
    advanceInOrder { x := 640, y := 640 } [2, 0, 1] threeRects =
        some [{ x := 0, y := 1, w := 3, h := 3 }, { x := 11, y := 21, w := 3, h := 3 },
              { x := 6, y := 0, w := 3, h := 3 }] ∧
      moveAll { x := 640, y := 640 } 3 threeRects =
        some [{ x := 0, y := 1, w := 3, h := 3 }, { x := 11, y := 21, w := 3, h := 3 },
              { x := 6, y := 0, w := 3, h := 3 }] := by
  constructor <;> decide

/-! ## Benchmark loop (claims C2, C10) -/

theorem wrapInt32_succ_add (a : Int) (k : Nat) :
    wrapInt32 (wrapInt32 (a + 1) + k) = wrapInt32 (a + ((k + 1 : Nat) : Int)) := by
  unfold wrapInt32
  push_cast
  omega

theorem pollLoop_eq_true_iff (events : List Nat) : ∀ q : Bool,
    pollLoop events q = true ↔ (q = true ∨ SDL_QUIT ∈ events) := by
  induction events with
  | nil => intro q; simp [pollLoop]
  | cons e events ih =>
    intro q
    have step : pollLoop (e :: events) q = pollLoop events (if e = SDL_QUIT then true else q) := by
      simp [pollLoop]
    rw [step, ih]
    by_cases he : e = SDL_QUIT
    · simp [he]
    · have : SDL_QUIT ≠ e := fun h => he h.symm
      simp [he, this]

theorem runLoop_zero {σ τ : Type} (p : Platform σ) (fn : σ → τ → Option (σ × τ)) (deadline : Int)
    (s : LoopState σ τ) : runLoop p fn deadline 0 s = none := rfl

theorem runLoop_quit {σ τ : Type} (p : Platform σ) (fn : σ → τ → Option (σ × τ)) (deadline : Int)
    (fuel : Nat) (s : LoopState σ τ) (hq : s.quit = true) :
    runLoop p fn deadline (fuel + 1) s = some s := by
  simp [runLoop, hq]

theorem runLoop_exit {σ τ : Type} (p : Platform σ) (fn : σ → τ → Option (σ × τ)) (deadline : Int)
    (fuel : Nat) (s : LoopState σ τ) (hq : s.quit = false)
    (ht : ¬ wrapUint32 (p.getTicks s.world).1 < deadline) :
    runLoop p fn deadline (fuel + 1) s = some { s with world := (p.getTicks s.world).2 } := by
  simp [runLoop, hq, ht]

theorem runLoop_undefined {σ τ : Type} (p : Platform σ) (fn : σ → τ → Option (σ × τ))
    (deadline : Int) (fuel : Nat) (s : LoopState σ τ) (hq : s.quit = false)
    (ht : wrapUint32 (p.getTicks s.world).1 < deadline)
    (hf : fn (p.pollEvents (p.getTicks s.world).2).2 s.closure = none) :
    runLoop p fn deadline (fuel + 1) s = none := by
  simp [runLoop, hq, ht, hf]

theorem runLoop_iterate {σ τ : Type} (p : Platform σ) (fn : σ → τ → Option (σ × τ))
    (deadline : Int) (fuel : Nat) (s : LoopState σ τ) (hq : s.quit = false)
    (ht : wrapUint32 (p.getTicks s.world).1 < deadline) (w : σ) (c : τ)
    (hf : fn (p.pollEvents (p.getTicks s.world).2).2 s.closure = some (w, c)) :
    runLoop p fn deadline (fuel + 1) s =
      runLoop p fn deadline fuel
        { quit := pollLoop (p.pollEvents (p.getTicks s.world).2).1 s.quit
          count := wrapInt32 (s.count + 1)
          world := p.renderPresent w
          closure := c
          iterations := s.iterations + 1
          polled := s.polled ++ (p.pollEvents (p.getTicks s.world).2).1 } := by
  simp [runLoop, hq, ht, hf]

/-- What one execution of the loop of `Runner::run` establishes between the loop variables at
entry (`s`) and at exit (`s2`). -/
theorem runLoop_sound {σ τ : Type} (p : Platform σ) (fn : σ → τ → Option (σ × τ))
    (deadline : Int) :
    ∀ (fuel : Nat) (s s2 : LoopState σ τ), runLoop p fn deadline fuel s = some s2 →
      ∃ k : Nat, s2.iterations = s.iterations + k ∧
        (IsInt32 s.count → s2.count = wrapInt32 (s.count + k)) ∧
        (s.quit = true → s2.quit = true) ∧
        (∃ ev, s2.polled = s.polled ++ ev ∧ (SDL_QUIT ∈ ev → s2.quit = true)) := by
  intro fuel
  induction fuel with
  | zero => intro s s2 h; rw [runLoop_zero] at h; cases h
  | succ fuel ih =>
    intro s s2 h
    cases hq : s.quit with
    | true =>
      rw [runLoop_quit p fn deadline fuel s hq] at h
      cases h
      exact ⟨0, rfl, fun hc => by simp [wrapInt32_of_range hc], fun _ => hq,
        [], by simp, by simp⟩
    | false =>
      by_cases ht : wrapUint32 (p.getTicks s.world).1 < deadline
      · cases hf : fn (p.pollEvents (p.getTicks s.world).2).2 s.closure with
        | none => rw [runLoop_undefined p fn deadline fuel s hq ht hf] at h; cases h
        | some wc =>
          obtain ⟨w, c⟩ := wc
          rw [runLoop_iterate p fn deadline fuel s hq ht w c hf] at h
          obtain ⟨k, h1, h2, h4, ev, h5, h6⟩ := ih _ s2 h
          refine ⟨k + 1, ?_, ?_, ?_, ?_⟩
          · rw [h1]; simp only; omega
          · intro _
            rw [h2 (isInt32_wrapInt32 _)]
            exact wrapInt32_succ_add s.count k
          · intro hc; cases hc
          · refine ⟨(p.pollEvents (p.getTicks s.world).2).1 ++ ev, ?_, ?_⟩
            · rw [h5]; simp
            · intro hmem
              rcases List.mem_append.mp hmem with hm | hm
              · exact h4 ((pollLoop_eq_true_iff _ _).2 (Or.inr hm))
              · exact h6 hm
      · rw [runLoop_exit p fn deadline fuel s hq ht] at h
        cases h
        exact ⟨0, rfl, fun hc => by simp [wrapInt32_of_range hc],
          (fun hc => by cases hc), [], by simp, by simp⟩

theorem runLoop_fuel_mono {σ τ : Type} (p : Platform σ) (fn : σ → τ → Option (σ × τ))
    (deadline : Int) :
    ∀ (fuel : Nat) (s s2 : LoopState σ τ), runLoop p fn deadline fuel s = some s2 →
      ∀ fuel2, fuel ≤ fuel2 → runLoop p fn deadline fuel2 s = some s2 := by
  intro fuel
  induction fuel with
  | zero => intro s s2 h; rw [runLoop_zero] at h; cases h
  | succ fuel ih =>
    intro s s2 h fuel2 hle
    obtain ⟨f2, rfl⟩ : ∃ f2, fuel2 = f2 + 1 := ⟨fuel2 - 1, by omega⟩
    cases hq : s.quit with
    | true =>
      rw [runLoop_quit p fn deadline fuel s hq] at h
      rw [runLoop_quit p fn deadline f2 s hq]
      exact h
    | false =>
      by_cases ht : wrapUint32 (p.getTicks s.world).1 < deadline
      · cases hf : fn (p.pollEvents (p.getTicks s.world).2).2 s.closure with
        | none => rw [runLoop_undefined p fn deadline fuel s hq ht hf] at h; cases h
        | some wc =>
          obtain ⟨w, c⟩ := wc
          rw [runLoop_iterate p fn deadline fuel s hq ht w c hf] at h
          rw [runLoop_iterate p fn deadline f2 s hq ht w c hf]
          exact ih _ s2 h f2 (by omega)
      · rw [runLoop_exit p fn deadline fuel s hq ht] at h
        rw [runLoop_exit p fn deadline f2 s hq ht]
        exact h

theorem cDiv_duration {d : Int} (hd : 1000 ≤ d) (hdr : IsInt32 d) :
    cDiv d 1000 = some (d / 1000) ∧ 1 ≤ d / 1000 ∧ d / 1000 < 2147483648 ∧
      Int.tdiv d 1000 = d / 1000 := by
  have h1 : Int.tdiv d 1000 = d / 1000 := Int.tdiv_eq_ediv (by omega) (by omega)
  have h2 : 1 ≤ d / 1000 := by omega
  have h3 : d / 1000 < 2147483648 := by have := hdr.2; omega
  refine ⟨?_, h2, h3, h1⟩
  unfold cDiv
  rw [if_neg (by omega), if_neg (by omega), h1, wrapInt32_of_range ⟨by omega, by omega⟩]

/-- Unfolding of `Runner::run` for a duration of at least one second: the result is built from
the loop variables at loop exit. -/
theorem run_eq_some {σ τ : Type} {runner : Runner} {p : Platform σ}
    {fn : σ → τ → Option (σ × τ)} {fuel : Nat} {w : σ} {c : τ} {res : RunResult σ τ}
    (hd : 1000 ≤ runner.duration) (hdr : IsInt32 runner.duration)
    (h : runner.run p fn fuel w c = some res) :
    ∃ s, runLoop p fn (wrapUint32 (wrapUint32 (p.getTicks w).1 + runner.duration)) fuel
          { quit := runner.quit, count := 0, world := (p.getTicks w).2, closure := c,
            iterations := 0, polled := [] } = some s ∧
      res = { fps := wrapInt32 (Int.tdiv s.count (runner.duration / 1000)),
              runner := { runner with quit := s.quit }, world := s.world,
              closure := s.closure, iterations := s.iterations, polled := s.polled } := by
  obtain ⟨h1, h2, _, _⟩ := cDiv_duration hd hdr
  unfold Runner.run at h
  simp only at h
  cases hl : runLoop p fn (wrapUint32 (wrapUint32 (p.getTicks w).1 + runner.duration)) fuel
      { quit := runner.quit, count := 0, world := (p.getTicks w).2, closure := c,
        iterations := 0, polled := [] } with
  | none => rw [hl] at h; cases h
  | some s =>
    rw [hl] at h
    simp only [h1] at h
    have h3 : cDiv s.count (runner.duration / 1000) =
        some (wrapInt32 (Int.tdiv s.count (runner.duration / 1000))) := by
      unfold cDiv
      rw [if_neg (by omega), if_neg (by omega)]
    rw [h3] at h
    simp only [Option.some.injEq] at h
    exact ⟨s, rfl, h.symm⟩

theorem run_of_loop {σ τ : Type} {runner : Runner} {p : Platform σ}
    {fn : σ → τ → Option (σ × τ)} {fuel : Nat} {w : σ} {c : τ} {s : LoopState σ τ}
    (hd : 1000 ≤ runner.duration) (hdr : IsInt32 runner.duration)
    (h : runLoop p fn (wrapUint32 (wrapUint32 (p.getTicks w).1 + runner.duration)) fuel
          { quit := runner.quit, count := 0, world := (p.getTicks w).2, closure := c,
            iterations := 0, polled := [] } = some s) :
    runner.run p fn fuel w c =
      some { fps := wrapInt32 (Int.tdiv s.count (runner.duration / 1000)),
             runner := { runner with quit := s.quit }, world := s.world,
             closure := s.closure, iterations := s.iterations, polled := s.polled } := by
  obtain ⟨h1, h2, _, _⟩ := cDiv_duration hd hdr
  have h3 : cDiv s.count (runner.duration / 1000) =
      some (wrapInt32 (Int.tdiv s.count (runner.duration / 1000))) := by
    unfold cDiv
    rw [if_neg (by omega), if_neg (by omega)]
  unfold Runner.run
  simp only [h, h1, h3]

/-- Every loop iteration calls the frame function once and `SDL_RenderPresent` once: for any
way `calls` of counting frame-function calls in the captured state and any way `presents` of
counting present calls in the world, both counts grow by the number of iterations. -/
theorem runLoop_counts {σ τ : Type} (p : Platform σ) (fn : σ → τ → Option (σ × τ))
    (deadline : Int) (calls : τ → Nat) (presents : σ → Nat)
    (hcalls : ∀ w c w2 c2, fn w c = some (w2, c2) → calls c2 = calls c + 1 ∧
      presents w2 = presents w)
    (hticks : ∀ w, presents (p.getTicks w).2 = presents w)
    (hpoll : ∀ w, presents (p.pollEvents w).2 = presents w)
    (hpresent : ∀ w, presents (p.renderPresent w) = presents w + 1) :
    ∀ (fuel : Nat) (s s2 : LoopState σ τ), runLoop p fn deadline fuel s = some s2 →
      calls s2.closure + s.iterations = calls s.closure + s2.iterations ∧
      presents s2.world + s.iterations = presents s.world + s2.iterations := by
  intro fuel
  induction fuel with
  | zero => intro s s2 h; rw [runLoop_zero] at h; cases h
  | succ fuel ih =>
    intro s s2 h
    cases hq : s.quit with
    | true =>
      rw [runLoop_quit p fn deadline fuel s hq] at h
      cases h
      exact ⟨rfl, rfl⟩
    | false =>
      by_cases ht : wrapUint32 (p.getTicks s.world).1 < deadline
      · cases hf : fn (p.pollEvents (p.getTicks s.world).2).2 s.closure with
        | none => rw [runLoop_undefined p fn deadline fuel s hq ht hf] at h; cases h
        | some wc =>
          obtain ⟨w, c⟩ := wc
          rw [runLoop_iterate p fn deadline fuel s hq ht w c hf] at h
          obtain ⟨h1, h2⟩ := ih _ s2 h
          obtain ⟨h3, h4⟩ := hcalls _ _ _ _ hf
          simp only at h1 h2
          rw [hpresent, h4, hpoll, hticks] at h2
          rw [h3] at h1
          constructor <;> omega
      · rw [runLoop_exit p fn deadline fuel s hq ht] at h
        cases h
        exact ⟨rfl, by simp only; rw [hticks]⟩

/-- The result of `Runner::run` in terms of the number of loop iterations, whatever that number:
the counter is the iteration count reduced to an `int`. -/
theorem run_fps_general {σ τ : Type} {runner : Runner} {p : Platform σ}
    {fn : σ → τ → Option (σ × τ)} {fuel : Nat} {w : σ} {c : τ} {res : RunResult σ τ}
    (hd : 1000 ≤ runner.duration) (hdr : IsInt32 runner.duration)
    (h : runner.run p fn fuel w c = some res) :
    res.fps = wrapInt32 (Int.tdiv (wrapInt32 res.iterations) (runner.duration / 1000)) := by
  obtain ⟨s, hl, rfl⟩ := run_eq_some hd hdr h
  obtain ⟨k, h1, h2, _⟩ := runLoop_sound p fn _ fuel _ s hl
  simp only at h1 h2 ⊢
  rw [h2 (by decide), h1]
  simp

/-- The loop of `Runner::run` terminates whenever some measure `μ` of the world decreases over
each iteration and the frame function always returns: `μ + 1` units of fuel suffice. -/
theorem runLoop_terminates {σ τ : Type} (p : Platform σ) (fn : σ → τ → Option (σ × τ))
    (deadline : Int) (μ : σ → Nat)
    (hfn : ∀ w c, ∃ w2 c2, fn w c = some (w2, c2))
    (hμ : ∀ w c w2 c2, wrapUint32 (p.getTicks w).1 < deadline →
      fn (p.pollEvents (p.getTicks w).2).2 c = some (w2, c2) → μ (p.renderPresent w2) < μ w) :
    ∀ (n : Nat) (s : LoopState σ τ), μ s.world ≤ n →
      ∃ s2, runLoop p fn deadline (n + 1) s = some s2 := by
  intro n
  induction n with
  | zero =>
    intro s hs
    cases hq : s.quit with
    | true => exact ⟨s, runLoop_quit p fn deadline 0 s hq⟩
    | false =>
      by_cases ht : wrapUint32 (p.getTicks s.world).1 < deadline
      · obtain ⟨w2, c2, hf⟩ := hfn (p.pollEvents (p.getTicks s.world).2).2 s.closure
        have := hμ _ _ _ _ ht hf
        omega
      · exact ⟨_, runLoop_exit p fn deadline 0 s hq ht⟩
  | succ n ih =>
    intro s hs
    cases hq : s.quit with
    | true => exact ⟨s, runLoop_quit p fn deadline _ s hq⟩
    | false =>
      by_cases ht : wrapUint32 (p.getTicks s.world).1 < deadline
      · obtain ⟨w2, c2, hf⟩ := hfn (p.pollEvents (p.getTicks s.world).2).2 s.closure
        have hlt := hμ _ _ _ _ ht hf
        rw [runLoop_iterate p fn deadline (n + 1) s hq ht w2 c2 hf]
        exact ih _ (by simp only; omega)
      · exact ⟨_, runLoop_exit p fn deadline _ s hq ht⟩

/-- `Runner::run` returns a result under the conditions of `runLoop_terminates`, for a duration of
at least 1000 ms. -/
theorem run_returns {σ τ : Type} (runner : Runner) (p : Platform σ)
    (fn : σ → τ → Option (σ × τ)) (w : σ) (c : τ) (μ : σ → Nat)
    (hd : 1000 ≤ runner.duration) (hdr : IsInt32 runner.duration)
    (hfn : ∀ w c, ∃ w2 c2, fn w c = some (w2, c2))
    (hμ : ∀ v c v2 c2,
      wrapUint32 (p.getTicks v).1 < wrapUint32 (wrapUint32 (p.getTicks w).1 + runner.duration) →
      fn (p.pollEvents (p.getTicks v).2).2 c = some (v2, c2) → μ (p.renderPresent v2) < μ v) :
    ∃ res, runner.run p fn (μ (p.getTicks w).2 + 1) w c = some res := by
  obtain ⟨s, hs⟩ := runLoop_terminates p fn _ μ hfn hμ (μ (p.getTicks w).2)
    { quit := runner.quit, count := 0, world := (p.getTicks w).2, closure := c,
      iterations := 0, polled := [] } (le_refl _)
  exact ⟨_, run_of_loop hd hdr hs⟩

/-- C2, amended: for a run with a duration of at least 1000 ms. (1) The run returns a result
whenever the frame function always returns and some measure `μ` of the world decreases over each
loop iteration. (2) Whatever result it returns is returned for any larger fuel; its number `k`
of loop iterations is the number of frame-function calls and of present calls, by any way of
counting them; and when `k < 2^31` the value returned is `k / (duration / 1000)`, both
divisions truncating, and is not negative. -/
theorem run_returns_frames_per_second {σ τ : Type} (runner : Runner) (p : Platform σ)
    (fn : σ → τ → Option (σ × τ)) (w : σ) (c : τ)
    (hd : 1000 ≤ runner.duration) (hdr : IsInt32 runner.duration) :
    (∀ μ : σ → Nat,
        (∀ w c, ∃ w2 c2, fn w c = some (w2, c2)) →
        (∀ v c v2 c2,
          wrapUint32 (p.getTicks v).1 <
            wrapUint32 (wrapUint32 (p.getTicks w).1 + runner.duration) →
          fn (p.pollEvents (p.getTicks v).2).2 c = some (v2, c2) →
          μ (p.renderPresent v2) < μ v) →
        ∃ res, runner.run p fn (μ (p.getTicks w).2 + 1) w c = some res) ∧
      (∀ (fuel : Nat) (res : RunResult σ τ), runner.run p fn fuel w c = some res →
        (∀ fuel2, fuel ≤ fuel2 → runner.run p fn fuel2 w c = some res) ∧
        (∀ (calls : τ → Nat) (presents : σ → Nat),
          (∀ w c w2 c2, fn w c = some (w2, c2) →
            calls c2 = calls c + 1 ∧ presents w2 = presents w) →
          (∀ w, presents (p.getTicks w).2 = presents w) →
          (∀ w, presents (p.pollEvents w).2 = presents w) →
          (∀ w, presents (p.renderPresent w) = presents w + 1) →
          calls res.closure = calls c + res.iterations ∧
            presents res.world = presents w + res.iterations) ∧
        (res.iterations < 2147483648 →
          res.fps = Int.tdiv (res.iterations : Int) (Int.tdiv runner.duration 1000) ∧
            0 ≤ res.fps)) := by
  obtain ⟨_, hs1, hs2, hs3⟩ := cDiv_duration hd hdr
  refine ⟨fun μ hfn hμ => run_returns runner p fn w c μ hd hdr hfn hμ, ?_⟩
  intro fuel res hrun
  refine ⟨?_, ?_, ?_⟩
  · intro fuel2 hle
    obtain ⟨s, hl, rfl⟩ := run_eq_some hd hdr hrun
    exact run_of_loop hd hdr (runLoop_fuel_mono p fn _ fuel _ s hl fuel2 hle)
  · intro calls presents hcalls hticks hpoll hpresent
    obtain ⟨s, hl, rfl⟩ := run_eq_some hd hdr hrun
    have := runLoop_counts p fn _ calls presents hcalls hticks hpoll hpresent fuel _ s hl
    simp only at this ⊢
    rw [hticks] at this
    omega
  · intro hk
    have hfps := run_fps_general hd hdr hrun
    have hk2 : (res.iterations : Int) < 2147483648 := by exact_mod_cast hk
    have hk0 : (0 : Int) ≤ (res.iterations : Int) := Int.natCast_nonneg _
    have hw : wrapInt32 (res.iterations : Int) = res.iterations :=
      wrapInt32_of_range ⟨by omega, hk2⟩
    have hq : Int.tdiv (res.iterations : Int) (runner.duration / 1000) =
        (res.iterations : Int) / (runner.duration / 1000) :=
      Int.tdiv_eq_ediv hk0 (by omega)
    have hq0 : 0 ≤ (res.iterations : Int) / (runner.duration / 1000) :=
      Int.ediv_nonneg hk0 (by omega)
    have hq1 : (res.iterations : Int) / (runner.duration / 1000) ≤ res.iterations :=
      Int.ediv_le_self _ hk0
    rw [hw, hq, wrapInt32_of_range ⟨by omega, by omega⟩] at hfps
    exact ⟨by rw [hfps, hs3, hq], by rw [hfps]; exact hq0⟩

theorem run_returns_frames_per_second_witness :
    (∀ μ : Int → Nat,
        (∀ w c, ∃ w2 c2, countingFrame w c = some (w2, c2)) →
        (∀ v c v2 c2,
          wrapUint32 ((steadyClock []).getTicks v).1 <
            wrapUint32 (wrapUint32 ((steadyClock []).getTicks 0).1 + sampleRunner.duration) →
          countingFrame ((steadyClock []).pollEvents ((steadyClock []).getTicks v).2).2 c =
            some (v2, c2) →
          μ ((steadyClock []).renderPresent v2) < μ v) →
        ∃ res, sampleRunner.run (steadyClock []) countingFrame
          (μ ((steadyClock []).getTicks 0).2 + 1) 0 0 = some res) ∧
      (∀ (fuel : Nat) (res : RunResult Int Nat),
        sampleRunner.run (steadyClock []) countingFrame fuel 0 0 = some res →
        (∀ fuel2, fuel ≤ fuel2 →
          sampleRunner.run (steadyClock []) countingFrame fuel2 0 0 = some res) ∧
        (∀ (calls : Nat → Nat) (presents : Int → Nat),
          (∀ w c w2 c2, countingFrame w c = some (w2, c2) →
            calls c2 = calls c + 1 ∧ presents w2 = presents w) →
          (∀ w, presents ((steadyClock []).getTicks w).2 = presents w) →
          (∀ w, presents ((steadyClock []).pollEvents w).2 = presents w) →
          (∀ w, presents ((steadyClock []).renderPresent w) = presents w + 1) →
          calls res.closure = calls 0 + res.iterations ∧
            presents res.world = presents 0 + res.iterations) ∧
        (res.iterations < 2147483648 →
          res.fps = Int.tdiv (res.iterations : Int) (Int.tdiv sampleRunner.duration 1000) ∧
            0 ≤ res.fps)) :=
  run_returns_frames_per_second sampleRunner (steadyClock []) countingFrame 0 0
    (by decide) (by decide)

/-- A run on the steady clock: 13 frames in 5000 ms, `13 / 5 = 2`; the frame function was called
13 times. -/
theorem run_example :
    sampleRunner.run (steadyClock []) countingFrame 20 0 0 =
      some { fps := 2, runner := sampleRunner, world := 5200, closure := 13, iterations := 13,
             polled := [] } := by
  rfl

/-- On a counted clock the loop runs exactly as many iterations as there are readings below
the deadline before the first reading that is not. -/
theorem runLoop_countedClock (clock : Nat → Int) (deadline : Int) (j : Nat) :
    ∀ (fuel : Nat) (s : LoopState Nat Unit), s.quit = false → j < fuel →
      (∀ m, s.world ≤ m → m < s.world + j → wrapUint32 (clock m) < deadline) →
      ¬ wrapUint32 (clock (s.world + j)) < deadline → IsInt32 s.count →
      runLoop (countedClock clock) idleFrame deadline fuel s =
        some { quit := false, count := wrapInt32 (s.count + j), world := s.world + j + 1,
               closure := s.closure, iterations := s.iterations + j, polled := s.polled } := by
  induction j with
  | zero =>
    intro fuel s hq hf _ hstop hc
    obtain ⟨f, rfl⟩ : ∃ f, fuel = f + 1 := ⟨fuel - 1, by omega⟩
    rw [runLoop_exit (countedClock clock) idleFrame deadline f s hq hstop]
    simp [wrapInt32_of_range hc, ← hq, countedClock]
  | succ j ih =>
    intro fuel s hq hf hbelow hstop hc
    obtain ⟨f, rfl⟩ : ∃ f, fuel = f + 1 := ⟨fuel - 1, by omega⟩
    have ht : wrapUint32 ((countedClock clock).getTicks s.world).1 < deadline :=
      hbelow s.world (le_refl _) (by omega)
    have hfn : idleFrame
        ((countedClock clock).pollEvents ((countedClock clock).getTicks s.world).2).2
        s.closure = some (s.world + 1, s.closure) := rfl
    rw [runLoop_iterate (countedClock clock) idleFrame deadline f s hq ht _ _ hfn,
      ih f _ (by rw [hq]; rfl) (by omega)
        (fun m h1 h2 => hbelow m (by simp only [countedClock] at h1; omega)
          (by simp only [countedClock] at h2; omega))
        (by simp only [countedClock]; rw [show s.world + 1 + j = s.world + (j + 1) by omega]
            exact hstop)
        (isInt32_wrapInt32 _)]
    simp only [wrapInt32_succ_add, countedClock, List.append_nil, Option.some.injEq,
      LoopState.mk.injEq, true_and, and_true]
    omega

/-- C2 as stated fails: with `duration = 2147483647` ms and 1500 frames per second the loop runs
`3221225470` iterations, the `int` counter wraps, and `Runner::run` returns `-500`, which is
negative and is not `3221225470 / (2147483647 / 1000) = 1500`. -/
theorem run_fps_negative_counterexample :
    (Runner.run { width := 640, height := 640, duration := 2147483647, quit := false }
        (countedClock fastFrames) idleFrame 3221225472 0 ()).map
        (fun r => (r.iterations, r.fps)) = some (3221225470, -500) ∧
      Int.tdiv ((3221225470 : Nat) : Int) (Int.tdiv 2147483647 1000) = 1500 ∧
      ¬ (0 ≤ (-500 : Int)) := by
  refine ⟨?_, by decide, by decide⟩
  have hl := runLoop_countedClock fastFrames 2147483647 3221225470 3221225472
    { quit := false, count := 0, world := 1, closure := (), iterations := 0, polled := [] }
    rfl (by norm_num)
    (by
      intro m h1 h2
      simp only at h1 h2
      have hb0 : 0 ≤ fastFrames m := by unfold fastFrames; omega
      have hb1 : fastFrames m < 2147483647 := by unfold fastFrames; omega
      unfold wrapUint32
      rw [Int.emod_eq_of_lt hb0 (by omega)]
      exact hb1)
    (by
      have hb : fastFrames (1 + 3221225470) = 2147483647 := by decide
      simp only [hb]
      decide)
    (by decide)
  have hd : wrapUint32 (wrapUint32 ((countedClock fastFrames).getTicks 0).1 + 2147483647) =
      2147483647 := by
    decide
  have hw : ((countedClock fastFrames).getTicks 0).2 = 1 := rfl
  have hrun := @run_of_loop Nat Unit
    { width := 640, height := 640, duration := 2147483647, quit := false }
    (countedClock fastFrames) idleFrame 3221225472 0 () _ (by decide) (by decide)
    (by rw [hd, hw]; exact hl)
  rw [hrun]
  simp only [Option.map_some', Option.some.injEq, Prod.mk.injEq]
  constructor
  · norm_num
  · decide

/-- C10: `Runner::run` never resets `quit`: a run entered with `quit` set leaves it set, and a
run that polled an `SDL_QUIT` event leaves it set; and on a runner whose `quit` is set (duration
at least 1000 ms) every later `run`, on any platform state and with any frame function, reads
the clock once for the deadline, executes zero loop iterations (the world is the one after that
clock read and the captured state of the frame function is untouched, so neither the frame
function nor present was called), returns `0` and leaves the runner as it was. -/
theorem quit_flag_is_sticky {σ τ : Type} (runner : Runner) (p : Platform σ)
    (fn : σ → τ → Option (σ × τ)) (fuel : Nat) (w : σ) (c : τ) (res : RunResult σ τ)
    (hd : 1000 ≤ runner.duration) (hdr : IsInt32 runner.duration)
    (hrun : runner.run p fn fuel w c = some res) :
    (runner.quit = true → res.runner.quit = true) ∧
      (SDL_QUIT ∈ res.polled → res.runner.quit = true) ∧
      (res.runner.quit = true →
        ∀ (σ2 τ2 : Type) (p2 : Platform σ2) (fn2 : σ2 → τ2 → Option (σ2 × τ2)) (fuel2 : Nat)
          (w2 : σ2) (c2 : τ2),
          res.runner.run p2 fn2 (fuel2 + 1) w2 c2 =
            some { fps := 0, runner := res.runner, world := (p2.getTicks w2).2, closure := c2,
                   iterations := 0, polled := [] }) := by
  obtain ⟨s, hl, rfl⟩ := run_eq_some hd hdr hrun
  obtain ⟨k, _, _, h3, ev, h4, h5⟩ := runLoop_sound p fn _ fuel _ s hl
  simp only at h3 h4 ⊢
  refine ⟨h3, ?_, ?_⟩
  · intro hmem
    rw [h4] at hmem
    exact h5 (by simpa using hmem)
  · intro hq σ2 τ2 p2 fn2 fuel2 w2 c2
    have hloop := runLoop_quit p2 fn2
      (wrapUint32 (wrapUint32 (p2.getTicks w2).1 + runner.duration)) fuel2
      { quit := s.quit, count := 0, world := (p2.getTicks w2).2, closure := c2,
        iterations := 0, polled := [] } hq
    have hrun2 := @run_of_loop σ2 τ2 { runner with quit := s.quit } p2 fn2 (fuel2 + 1) w2 c2 _
      hd hdr hloop
    rw [hrun2]
    have hz : wrapInt32 (Int.tdiv 0 (runner.duration / 1000)) = 0 := by
      rw [Int.zero_tdiv]; decide
    simp only [hz]

theorem quit_flag_is_sticky_witness :
    ((false : Bool) = true → (true : Bool) = true) ∧
      (SDL_QUIT ∈ [SDL_QUIT] → (true : Bool) = true) ∧
      ((true : Bool) = true →
        ∀ (σ2 τ2 : Type) (p2 : Platform σ2) (fn2 : σ2 → τ2 → Option (σ2 × τ2)) (fuel2 : Nat)
          (w2 : σ2) (c2 : τ2),
          Runner.run { width := 640, height := 640, duration := 5000, quit := true }
              p2 fn2 (fuel2 + 1) w2 c2 =
            some { fps := 0,
                   runner := { width := 640, height := 640, duration := 5000, quit := true },
                   world := (p2.getTicks w2).2, closure := c2, iterations := 0, polled := [] }) :=
  quit_flag_is_sticky
    { width := 640, height := 640, duration := 5000, quit := false }
    (steadyClock [SDL_QUIT]) countingFrame 20 0 0
    { fps := 0, runner := { width := 640, height := 640, duration := 5000, quit := true },
      world := 400, closure := 1, iterations := 1, polled := [SDL_QUIT] }
    (by decide) (by decide) (by rfl)

/-! ## Strategy (a) frame function (claim C7) -/

theorem cRem_of_pos (a : Int) {b : Int} (hb : 0 < b) : ∃ v, cRem a b = some v := by
  unfold cRem
  rw [if_neg (by omega), if_neg (by omega)]
  exact ⟨_, rfl⟩

theorem moveRect_of_pos (rect : SDL_Rect) {size : SDL_Point} (hx : 0 < size.x)
    (hy : 0 < size.y) : ∃ r2, moveRect rect size = some r2 := by
  obtain ⟨x, ex⟩ := cRem_of_pos (wrapInt32 (rect.x + 1)) hx
  obtain ⟨y, ey⟩ := cRem_of_pos (wrapInt32 (rect.y + 1)) hy
  unfold moveRect
  rw [ex]
  simp only
  rw [ey]
  exact ⟨_, rfl⟩

/-- The two branches of the frame lambda at concrete inputs: 7 ms after the last advance the
three objects move (wrapping at column and row 639) and `updateTime` becomes `1007`; 3 ms after
it nothing changes. -/
theorem singleThreadFrame_example :
    singleThreadFrame (steadyClock []) { x := 640, y := 640 } 3 5 1007
        { rects := threeRects, updateTime := 1000 } =
      some (1007, { rects := [{ x := 0, y := 1, w := 3, h := 3 },
                              { x := 11, y := 21, w := 3, h := 3 },
                              { x := 6, y := 0, w := 3, h := 3 }],
                    updateTime := 1007 }) ∧
      singleThreadFrame (steadyClock []) { x := 640, y := 640 } 3 5 1003
        { rects := threeRects, updateTime := 1000 } =
      some (1003, { rects := threeRects, updateTime := 1000 }) := by
  constructor <;> decide

/-- A whole run of strategy (a) on the steady clock (one frame every 400 ms, 2000 ms run, update
period 5 ms): the first frame finds `now - updateTime = 0` and does not advance, each of the 4
later frames advances every object once, and 5 frames in 2 s give `5 / 2 = 2`. -/
theorem runSingleThreadNoMutex_example :
    (runSingleThreadNoMutex (steadyClock [])
        { width := 640, height := 640, duration := 2000, quit := false } 2 5 3 20 0).map
        (fun r => (r.fps, r.iterations, r.closure)) =
      some (2, 5, { rects := [{ x := 4, y := 4, w := 3, h := 3 },
                              { x := 4, y := 4, w := 3, h := 3 }],
                    updateTime := 1600 }) := by
  rfl

/-- On the steady clock the conditions of `run_returns` hold: the time left to the deadline
decreases with every frame. -/
theorem run_returns_on_steadyClock :
    ∃ res, Runner.run { width := 640, height := 640, duration := 5000, quit := false }
      (steadyClock []) countingFrame 5001 0 0 = some res := by
  have h := run_returns { width := 640, height := 640, duration := 5000, quit := false }
    (steadyClock []) countingFrame 0 0 (fun v => (5000 - wrapUint32 v).toNat)
    (by decide) (by decide) (fun w c => ⟨w, c + 1, rfl⟩)
    (by
      intro v c v2 c2 hlt hfn
      have hd : wrapUint32 (wrapUint32 ((steadyClock []).getTicks (0 : Int)).1 + 5000) = 5000 := by
        decide
      simp only [hd] at hlt
      simp only [steadyClock, countingFrame, Option.some.injEq, Prod.mk.injEq] at hlt hfn ⊢
      obtain ⟨rfl, _⟩ := hfn
      unfold wrapUint32 at hlt ⊢
      omega)
  exact h

/-! ## Strategy (c): snapshots are generations when the mutex exists -/

theorem updateInv_idle {cfg : Setup} {cur : List SDL_Rect} {s : Shared}
    (h : UpdateInv cfg cur s) (ho : s.owner ≠ some Thread.update) :
    s.updateRects = cur ∧ (∀ i, s.upc ≠ UpdatePc.move i) ∧ s.upc ≠ UpdatePc.unlock := by
  unfold UpdateInv at h
  cases hu : s.upc <;> rw [hu] at h <;> simp only at h
  case move i => exact absurd h.1 ho
  case unlock => exact absurd h.1 ho
  all_goals exact ⟨h.2, (fun i hc => by cases hc), (fun hc => by cases hc)⟩

theorem updateInv_idle_intro {cfg : Setup} {cur : List SDL_Rect} {s : Shared}
    (h1 : ∀ i, s.upc ≠ UpdatePc.move i) (h2 : s.upc ≠ UpdatePc.unlock)
    (ho : s.owner ≠ some Thread.update) (hr : s.updateRects = cur) : UpdateInv cfg cur s := by
  unfold UpdateInv
  cases hu : s.upc <;> simp only
  case move i => exact absurd hu (h1 i)
  case unlock => exact absurd hu h2
  all_goals exact ⟨ho, hr⟩

theorem updateInv_congr {cfg : Setup} {cur : List SDL_Rect} {s s2 : Shared}
    (h : UpdateInv cfg cur s) (h1 : s2.upc = s.upc) (h2 : s2.owner = s.owner)
    (h3 : s2.updateRects = s.updateRects) : UpdateInv cfg cur s2 := by
  unfold UpdateInv at h ⊢
  rw [h1, h2, h3]
  exact h

theorem renderInv_idle {cfg : Setup} {rects0 cur : List SDL_Rect} {g : Nat} {ks : List Nat}
    {s : Shared} (h : RenderInv cfg rects0 g cur ks s) (ho : s.owner ≠ some Thread.render) :
    (∀ i, s.rpc ≠ RenderPc.copy i) ∧ s.rpc ≠ RenderPc.unlock ∧ ∀ k ∈ ks, k ≤ g := by
  unfold RenderInv at h
  cases hr : s.rpc <;> rw [hr] at h <;> simp only at h
  case copy i => exact absurd h.1 ho
  case unlock => exact absurd h.1 ho
  case fill =>
    obtain ⟨_, k, hk, _, hks⟩ := h
    exact ⟨(fun i hc => by cases hc), (fun hc => by cases hc),
      fun k2 hk2 => le_trans (hks k2 hk2) hk⟩
  all_goals exact ⟨(fun i hc => by cases hc), (fun hc => by cases hc), h.2⟩

/-- While the calling thread is outside its critical section, its part of the invariant survives
any step of the other thread that completes further passes and leaves `rpc` and `renderRects`
alone. -/
theorem renderInv_mono {cfg : Setup} {rects0 cur cur2 : List SDL_Rect} {g g2 : Nat}
    {ks : List Nat} {s s2 : Shared} (h : RenderInv cfg rects0 g cur ks s)
    (ho : s.owner ≠ some Thread.render) (ho2 : s2.owner ≠ some Thread.render)
    (hg : g ≤ g2) (h1 : s2.rpc = s.rpc) (h2 : s2.renderRects = s.renderRects) :
    RenderInv cfg rects0 g2 cur2 ks s2 := by
  unfold RenderInv at h ⊢
  rw [h1, h2]
  cases hr : s.rpc <;> rw [hr] at h <;> simp only at h ⊢
  case copy i => exact absurd h.1 ho
  case unlock => exact absurd h.1 ho
  case fill =>
    obtain ⟨_, k, hk, hadv, hks⟩ := h
    exact ⟨ho2, k, le_trans hk hg, hadv, hks⟩
  all_goals exact ⟨ho2, fun k hk => le_trans (h.2 k hk) hg⟩

theorem renderInv_congr {cfg : Setup} {rects0 cur : List SDL_Rect} {g : Nat} {ks : List Nat}
    {s s2 : Shared} (h : RenderInv cfg rects0 g cur ks s) (h1 : s2.rpc = s.rpc)
    (h2 : s2.owner = s.owner) (h3 : s2.renderRects = s.renderRects) :
    RenderInv cfg rects0 g cur ks s2 := by
  unfold RenderInv at h ⊢
  rw [h1, h2, h3]
  exact h

theorem advanceN_succ_of_moved {cfg : Setup} {rects0 cur next : List SDL_Rect} {g : Nat}
    (hadv : advanceN cfg.size cfg.numRects g rects0 = some cur)
    (hlen : cur.length = cfg.numRects)
    (hmoved : MovedPrefix cfg.size cfg.numRects cur next) :
    advanceN cfg.size cfg.numRects (g + 1) rects0 = some next := by
  have h : moveAll cfg.size cfg.numRects cur = some next := by
    unfold moveAll
    exact advance_of_movedPrefix cfg.size cur cfg.numRects (by omega) next hmoved
  simp only [advanceN, hadv, h]

theorem inv_init (cfg : Setup) (rects0 render0 : List SDL_Rect)
    (h0 : rects0.length = cfg.numRects) (h1 : render0.length = cfg.numRects) :
    Inv cfg rects0 (initShared rects0 render0) := by
  refine ⟨0, rects0, [], rfl, h0, h1, ?_, ?_, List.Forall₂.nil, List.Pairwise.nil⟩
  · exact ⟨by simp [initShared], rfl⟩
  · exact ⟨by simp [initShared], by simp⟩

theorem inv_updateFnStep {cfg : Setup} {rects0 : List SDL_Rect} {s s2 : Shared}
    (hm : cfg.mutexCreated = true) (hI : Inv cfg rects0 s)
    (hs : updateFnStep cfg s = some s2) : Inv cfg rects0 s2 := by
  obtain ⟨g, cur, ks, hadv, hlen, hrlen, hU, hR, hD, hS⟩ := hI
  have hU2 := hU
  unfold UpdateInv at hU2
  unfold updateFnStep at hs
  cases hu : s.upc with
  | test =>
    rw [hu] at hs hU2
    simp only [Option.some.injEq] at hs hU2
    subst hs
    refine ⟨g, cur, ks, hadv, hlen, hrlen, ?_, renderInv_congr hR rfl rfl rfl, hD, hS⟩
    apply updateInv_idle_intro
    · intro i; simp only; split_ifs <;> exact fun hc => by cases hc
    · simp only; split_ifs <;> exact fun hc => by cases hc
    · exact hU2.1
    · exact hU2.2
  | lock =>
    rw [hu] at hs hU2
    simp only [hm, if_true] at hs hU2
    by_cases hown : s.owner = none
    · rw [if_pos hown] at hs
      simp only [Option.some.injEq] at hs
      subst hs
      refine ⟨g, cur, ks, hadv, hlen, hrlen, ?_, ?_, hD, hS⟩
      · unfold UpdateInv
        simp only
        refine ⟨trivial, Nat.zero_le _, ?_⟩
        rw [hU2.2]
        exact (movedPrefix_zero_iff cfg.size cur cur).2 rfl
      · exact renderInv_mono hR (by rw [hown]; exact fun hc => by cases hc)
          (fun hc => by cases hc) (le_refl g) rfl rfl
    · rw [if_neg hown] at hs
      simp only [Option.some.injEq] at hs
      subst hs
      exact ⟨g, cur, ks, hadv, hlen, hrlen, hU, hR, hD, hS⟩
  | move i =>
    rw [hu] at hs hU2
    simp only at hs hU2
    obtain ⟨hown, hi, hmoved⟩ := hU2
    by_cases hlt : i < cfg.numRects
    · rw [if_pos hlt] at hs
      cases hmv : moveAt cfg.size s.updateRects i with
      | none => rw [hmv] at hs; cases hs
      | some rects =>
        rw [hmv] at hs
        simp only [Option.some.injEq] at hs
        subst hs
        obtain ⟨r, r2, e1, e2, rfl⟩ := moveAt_eq_some hmv
        rw [movedPrefix_index hmoved] at e1
        refine ⟨g, cur, ks, hadv, hlen, hrlen, ?_, renderInv_congr hR rfl rfl rfl, hD, hS⟩
        unfold UpdateInv
        simp only
        exact ⟨hown, hlt, movedPrefix_step hmoved e1 e2⟩
    · rw [if_neg hlt] at hs
      simp only [Option.some.injEq] at hs
      subst hs
      refine ⟨g, cur, ks, hadv, hlen, hrlen, ?_, renderInv_congr hR rfl rfl rfl, hD, hS⟩
      unfold UpdateInv
      simp only
      have hin : i = cfg.numRects := by omega
      rw [hin] at hmoved
      exact ⟨hown, hmoved⟩
  | unlock =>
    rw [hu] at hs hU2
    simp only [hm, if_true, Option.some.injEq] at hs hU2
    subst hs
    obtain ⟨hown, hmoved⟩ := hU2
    refine ⟨g + 1, s.updateRects, ks, advanceN_succ_of_moved hadv hlen hmoved,
      by rw [hmoved.1, hlen], hrlen, ?_, ?_, hD, hS⟩
    · apply updateInv_idle_intro
      · intro i; exact fun hc => by cases hc
      · exact fun hc => by cases hc
      · exact fun hc => by cases hc
      · rfl
    · exact renderInv_mono hR (by rw [hown]; exact fun hc => by cases hc)
        (fun hc => by cases hc) (Nat.le_succ g) rfl rfl
  | delay =>
    rw [hu] at hs hU2
    simp only [Option.some.injEq] at hs hU2
    subst hs
    refine ⟨g, cur, ks, hadv, hlen, hrlen, ?_, renderInv_congr hR rfl rfl rfl, hD, hS⟩
    apply updateInv_idle_intro
    · intro i; exact fun hc => by cases hc
    · exact fun hc => by cases hc
    · exact hU2.1
    · exact hU2.2
  | done =>
    rw [hu] at hs
    simp only [Option.some.injEq] at hs
    subst hs
    exact ⟨g, cur, ks, hadv, hlen, hrlen, hU, hR, hD, hS⟩

theorem inv_renderFnStep {cfg : Setup} {rects0 : List SDL_Rect} {s s2 : Shared}
    (hm : cfg.mutexCreated = true) (hI : Inv cfg rects0 s)
    (hs : renderFnStep cfg s = some s2) : Inv cfg rects0 s2 := by
  obtain ⟨g, cur, ks, hadv, hlen, hrlen, hU, hR, hD, hS⟩ := hI
  have hR2 := hR
  unfold RenderInv at hR2
  unfold renderFnStep at hs
  cases hr : s.rpc with
  | lock =>
    rw [hr] at hs hR2
    simp only [hm, if_true] at hs hR2
    by_cases hown : s.owner = none
    · rw [if_pos hown] at hs
      simp only [Option.some.injEq] at hs
      subst hs
      obtain ⟨e1, e2, e3⟩ := updateInv_idle hU (by rw [hown]; exact fun hc => by cases hc)
      refine ⟨g, cur, ks, hadv, hlen, hrlen, ?_, ?_, hD, hS⟩
      · exact updateInv_idle_intro e2 e3 (fun hc => by cases hc) e1
      · unfold RenderInv
        simp only
        exact ⟨trivial, Nat.zero_le _, fun j hj => absurd hj (Nat.not_lt_zero j), hR2.2⟩
    · rw [if_neg hown] at hs
      simp only [Option.some.injEq] at hs
      subst hs
      exact ⟨g, cur, ks, hadv, hlen, hrlen, hU, hR, hD, hS⟩
  | copy i =>
    rw [hr] at hs hR2
    simp only at hs hR2
    obtain ⟨hown, hi, hpre, hks⟩ := hR2
    obtain ⟨e1, e2, e3⟩ := updateInv_idle hU (by rw [hown]; exact fun hc => by cases hc)
    by_cases hlt : i < cfg.numRects
    · rw [if_pos hlt] at hs
      cases hget : s.updateRects[i]? with
      | none => rw [hget] at hs; cases hs
      | some r =>
        rw [hget] at hs
        simp only at hs
        by_cases hin : i < s.renderRects.length
        · rw [if_pos hin] at hs
          simp only [Option.some.injEq] at hs
          subst hs
          refine ⟨g, cur, ks, hadv, hlen, by simp only [List.length_set]; exact hrlen,
            updateInv_congr hU rfl rfl rfl, ?_, hD, hS⟩
          unfold RenderInv
          simp only
          refine ⟨hown, hlt, fun j hj => ?_, hks⟩
          by_cases hji : j = i
          · subst hji
            rw [List.getElem?_set_self hin, ← e1, hget]
          · rw [List.getElem?_set_ne (fun e => hji e.symm)]
            exact hpre j (by omega)
        · rw [if_neg hin] at hs
          cases hs
    · rw [if_neg hlt] at hs
      simp only [Option.some.injEq] at hs
      subst hs
      refine ⟨g, cur, ks, hadv, hlen, hrlen, updateInv_congr hU rfl rfl rfl, ?_, hD, hS⟩
      unfold RenderInv
      simp only
      refine ⟨hown, ?_, hks⟩
      apply List.ext_getElem?
      intro j
      by_cases hj : j < i
      · exact hpre j hj
      · rw [List.getElem?_eq_none (by omega), List.getElem?_eq_none (by omega)]
  | unlock =>
    rw [hr] at hs hR2
    simp only [hm, if_true, Option.some.injEq] at hs hR2
    subst hs
    obtain ⟨hown, hcopy, hks⟩ := hR2
    obtain ⟨e1, e2, e3⟩ := updateInv_idle hU (by rw [hown]; exact fun hc => by cases hc)
    refine ⟨g, cur, ks, hadv, hlen, hrlen, ?_, ?_, hD, hS⟩
    · exact updateInv_idle_intro e2 e3 (fun hc => by cases hc) e1
    · unfold RenderInv
      simp only
      exact ⟨(fun hc => by cases hc), g, le_refl g, (by rw [hcopy]; exact hadv), hks⟩
  | fill =>
    rw [hr] at hs hR2
    simp only [Option.some.injEq] at hs hR2
    subst hs
    obtain ⟨hown, k, hk, hkadv, hks⟩ := hR2
    have htake : s.renderRects.take cfg.numRects = s.renderRects :=
      List.take_of_length_le (by rw [hrlen])
    refine ⟨g, cur, ks ++ [k], hadv, hlen, hrlen, updateInv_congr hU rfl rfl rfl, ?_, ?_, ?_⟩
    · unfold RenderInv
      simp only
      refine ⟨hown, fun k2 hk2 => ?_⟩
      rcases List.mem_append.mp hk2 with h | h
      · exact le_trans (hks k2 h) hk
      · rw [List.mem_singleton.mp h]; exact hk
    · simp only
      rw [htake]
      exact List.rel_append hD (List.Forall₂.cons hkadv List.Forall₂.nil)
    · rw [List.pairwise_append]
      refine ⟨hS, List.pairwise_singleton _ _, fun a ha b hb => ?_⟩
      rw [List.mem_singleton.mp hb]
      exact hks a ha
  | stopped =>
    rw [hr] at hs
    simp only [Option.some.injEq] at hs
    subst hs
    exact ⟨g, cur, ks, hadv, hlen, hrlen, hU, hR, hD, hS⟩

theorem inv_stopStep {cfg : Setup} {rects0 : List SDL_Rect} {s : Shared}
    (hI : Inv cfg rects0 s) : Inv cfg rects0 (stopStep s) := by
  obtain ⟨g, cur, ks, hadv, hlen, hrlen, hU, hR, hD, hS⟩ := hI
  unfold stopStep
  by_cases hr : s.rpc = RenderPc.lock
  · rw [if_pos hr]
    refine ⟨g, cur, ks, hadv, hlen, hrlen, updateInv_congr hU rfl rfl rfl, ?_, hD, hS⟩
    have hR2 := hR
    unfold RenderInv at hR2 ⊢
    rw [hr] at hR2
    simp only at hR2 ⊢
    exact hR2
  · rw [if_neg hr]
    exact ⟨g, cur, ks, hadv, hlen, hrlen, hU, hR, hD, hS⟩

theorem inv_step {cfg : Setup} {rects0 : List SDL_Rect} {s s2 : Shared} (a : Action)
    (hm : cfg.mutexCreated = true) (hI : Inv cfg rects0 s)
    (hs : step cfg a s = some s2) : Inv cfg rects0 s2 := by
  cases a with
  | update =>
    unfold step at hs
    simp only at hs
    by_cases ht : cfg.threadCreated = true
    · rw [if_pos ht] at hs
      exact inv_updateFnStep hm hI hs
    · rw [if_neg ht] at hs
      simp only [Option.some.injEq] at hs
      subst hs
      exact hI
  | render => exact inv_renderFnStep hm hI hs
  | stop =>
    unfold step at hs
    simp only [Option.some.injEq] at hs
    subst hs
    exact inv_stopStep hI

theorem inv_exec {cfg : Setup} {rects0 : List SDL_Rect} (hm : cfg.mutexCreated = true)
    (schedule : List Action) :
    ∀ s s2 : Shared, Inv cfg rects0 s → exec cfg schedule s = some s2 → Inv cfg rects0 s2 := by
  induction schedule with
  | nil =>
    intro s s2 hI hs
    simp only [exec, Option.some.injEq] at hs
    subst hs
    exact hI
  | cons a schedule ih =>
    intro s s2 hI hs
    unfold exec at hs
    cases hst : step cfg a s with
    | none => rw [hst] at hs; cases hs
    | some s1 =>
      rw [hst] at hs
      exact ih s1 s2 (inv_step a hm hI hst) hs

theorem step_defined {cfg : Setup} {rects0 : List SDL_Rect} {s : Shared} (a : Action)
    (hx : 0 < cfg.size.x) (hy : 0 < cfg.size.y) (hI : Inv cfg rects0 s) :
    ∃ s2, step cfg a s = some s2 := by
  obtain ⟨g, cur, ks, hadv, hlen, hrlen, hU, hR, hD, hS⟩ := hI
  cases a with
  | update =>
    unfold step
    simp only
    by_cases ht : cfg.threadCreated = true
    · rw [if_pos ht]
      unfold updateFnStep
      unfold UpdateInv at hU
      cases hu : s.upc with
      | move i =>
        rw [hu] at hU
        simp only at hU ⊢
        by_cases hlt : i < cfg.numRects
        · rw [if_pos hlt]
          have hi : i < s.updateRects.length := by rw [hU.2.2.1, hlen]; exact hlt
          obtain ⟨r2, hr2⟩ := moveRect_of_pos s.updateRects[i] hx hy
          rw [moveAt_of_move_some (List.getElem?_eq_getElem hi) hr2]
          exact ⟨_, rfl⟩
        · rw [if_neg hlt]
          exact ⟨_, rfl⟩
      | lock =>
        simp only
        split_ifs <;> exact ⟨_, rfl⟩
      | test => exact ⟨_, rfl⟩
      | unlock => exact ⟨_, rfl⟩
      | delay => exact ⟨_, rfl⟩
      | done => exact ⟨_, rfl⟩
    · rw [if_neg ht]
      exact ⟨_, rfl⟩
  | render =>
    unfold step
    simp only
    unfold renderFnStep
    have hR2 := hR
    unfold RenderInv at hR2
    cases hr : s.rpc with
    | copy i =>
      rw [hr] at hR2
      simp only at hR2 ⊢
      by_cases hlt : i < cfg.numRects
      · rw [if_pos hlt]
        obtain ⟨e1, _, _⟩ := updateInv_idle hU (by rw [hR2.1]; exact fun hc => by cases hc)
        have hi : i < s.updateRects.length := by rw [e1, hlen]; exact hlt
        rw [List.getElem?_eq_getElem hi]
        simp only
        rw [if_pos (by rw [hrlen]; exact hlt)]
        exact ⟨_, rfl⟩
      · rw [if_neg hlt]
        exact ⟨_, rfl⟩
    | lock =>
      simp only
      split_ifs <;> exact ⟨_, rfl⟩
    | unlock => exact ⟨_, rfl⟩
    | fill => exact ⟨_, rfl⟩
    | stopped => exact ⟨_, rfl⟩
  | stop => exact ⟨_, rfl⟩

theorem exec_defined {cfg : Setup} {rects0 : List SDL_Rect} (hm : cfg.mutexCreated = true)
    (hx : 0 < cfg.size.x) (hy : 0 < cfg.size.y) (schedule : List Action) :
    ∀ s : Shared, Inv cfg rects0 s → ∃ s2, exec cfg schedule s = some s2 := by
  induction schedule with
  | nil => intro s _; exact ⟨s, rfl⟩
  | cons a schedule ih =>
    intro s hI
    obtain ⟨s1, h1⟩ := step_defined a hx hy hI
    obtain ⟨s2, h2⟩ := ih s1 (inv_step a hm hI h1)
    refine ⟨s2, ?_⟩
    unfold exec
    rw [h1]
    exact h2

theorem moveRectN_succ_right (size : SDL_Point) (n : Nat) : ∀ r : SDL_Rect,
    moveRectN (n + 1) r size = (moveRectN n r size).bind (fun m => moveRect m size) := by
  induction n with
  | zero =>
    intro r
    simp only [moveRectN, Option.some_bind]
    cases moveRect r size <;> rfl
  | succ n ih =>
    intro r
    cases h : moveRect r size with
    | none => simp only [moveRectN, h, Option.none_bind]
    | some m =>
      have e1 : moveRectN (n + 1 + 1) r size = moveRectN (n + 1) m size := by
        simp only [moveRectN, h]
      have e2 : moveRectN (n + 1) r size = moveRectN n m size := by
        simp only [moveRectN, h]
      rw [e1, e2, ih m]

/-- The collection after `k` update passes holds, index for index, the object obtained by `k`
applications of `moveRect` to the initial object. -/
theorem advanceN_pointwise (size : SDL_Point) (rects : List SDL_Rect) :
    ∀ (k : Nat) (out : List SDL_Rect), advanceN size rects.length k rects = some out →
      List.Forall₂ (fun r r2 => moveRectN k r size = some r2) rects out := by
  intro k
  induction k with
  | zero =>
    intro out h
    simp only [advanceN, Option.some.injEq] at h
    subst h
    exact List.forall₂_same.2 (fun r _ => rfl)
  | succ k ih =>
    intro out h
    simp only [advanceN] at h
    cases hcur : advanceN size rects.length k rects with
    | none => rw [hcur] at h; cases h
    | some cur =>
      rw [hcur] at h
      simp only at h
      have h1 := ih cur hcur
      have hl : cur.length = rects.length := h1.length_eq.symm
      rw [← hl] at h
      have h2 := (moveAll_eq_some_iff size cur out).1 h
      rw [List.forall₂_iff_get] at h1 h2 ⊢
      refine ⟨by rw [h1.1, h2.1], fun i hi ho => ?_⟩
      have hc : i < cur.length := by rw [hl]; exact hi
      rw [moveRectN_succ_right, h1.2 i hi hc]
      exact h2.2 i hc ho

/-- Strategy (c) with the mutex created, for every interleaving of the steps of `updateFn`, of
`renderFn` and of the end of the run: the run is defined when the domain has positive sides,
and the batches copied into `renderRects` and drawn by the successive `renderFn` calls are each
the whole collection after some number `k` of complete update passes (every object advanced `k`
times), with `k` never decreasing from one batch to the next. -/
theorem snapshots_are_generations (cfg : Setup) (rects0 render0 : List SDL_Rect)
    (schedule : List Action) (hm : cfg.mutexCreated = true)
    (h0 : rects0.length = cfg.numRects) (h1 : render0.length = cfg.numRects) :
    (0 < cfg.size.x → 0 < cfg.size.y →
        ∃ s, exec cfg schedule (initShared rects0 render0) = some s) ∧
      (∀ s, exec cfg schedule (initShared rects0 render0) = some s →
        ∃ ks : List Nat,
          List.Forall₂
            (fun k batch =>
              advanceN cfg.size cfg.numRects k rects0 = some batch ∧
                List.Forall₂ (fun r r2 => moveRectN k r cfg.size = some r2) rects0 batch)
            ks s.drawn ∧
          ks.Pairwise (· ≤ ·)) := by
  have hI := inv_init cfg rects0 render0 h0 h1
  refine ⟨fun hx hy => exec_defined hm hx hy schedule _ hI, fun s hs => ?_⟩
  obtain ⟨g, cur, ks, _, _, _, _, _, hD, hS⟩ := inv_exec hm schedule _ s hI hs
  refine ⟨ks, ?_, hS⟩
  refine hD.imp (fun k batch hk => ⟨hk, ?_⟩)
  rw [← h0] at hk
  exact advanceN_pointwise cfg.size rects0 k batch hk

/-- The theorem `snapshots_are_generations` at a concrete run of two frames. -/
theorem snapshots_are_generations_example :
    (0 < lockedSetup.size.x → 0 < lockedSetup.size.y →
        ∃ s, exec lockedSetup twoFrameSchedule (initShared twoRects blankRects) = some s) ∧
      (∀ s, exec lockedSetup twoFrameSchedule (initShared twoRects blankRects) = some s →
        ∃ ks : List Nat,
          List.Forall₂
            (fun k batch =>
              advanceN lockedSetup.size lockedSetup.numRects k twoRects = some batch ∧
                List.Forall₂ (fun r r2 => moveRectN k r lockedSetup.size = some r2)
                  twoRects batch)
            ks s.drawn ∧
          ks.Pairwise (· ≤ ·)) :=
  snapshots_are_generations lockedSetup twoRects blankRects twoFrameSchedule
    (by decide) (by decide) (by decide)

/-- A run of strategy (c) with the mutex created: the first frame draws the initial collection,
the second the collection after one update pass; and on the interleaving `midCopySchedule` the
update thread waits for the mutex, so the frame drawn is the initial collection. -/
theorem single_mutex_example_runs :
    (exec lockedSetup twoFrameSchedule (initShared twoRects blankRects)).map
        (fun s => s.drawn) =
        some [[{ x := 0, y := 0, w := 3, h := 3 }, { x := 10, y := 10, w := 3, h := 3 }],
              [{ x := 1, y := 1, w := 3, h := 3 }, { x := 11, y := 11, w := 3, h := 3 }]] ∧
      (exec lockedSetup midCopySchedule (initShared twoRects blankRects)).map
          (fun s => s.drawn) =
        some [[{ x := 0, y := 0, w := 3, h := 3 }, { x := 10, y := 10, w := 3, h := 3 }]] := by
  constructor <;> decide

/-! ## Creation failures (claim C6) -/

/-- C6, the code at the failing inputs. When `SDL_CreateThread` returns null (and the mutex too),
`renderFn` still runs and draws a frame. When `SDL_CreateMutex` returns null and the thread is
created, `renderFn` still runs, and on the interleaving `midCopySchedule` it draws a batch with
object 0 before the update pass and object 1 after it, which is the collection after no number
of update passes. -/
theorem creation_failure_is_not_fatal :
    (exec nullThreadSetup
        [Action.render, Action.render, Action.render, Action.render, Action.render,
         Action.render]
        (initShared twoRects blankRects)).map (fun s => s.drawn) = some [twoRects] ∧
      (exec nullMutexSetup midCopySchedule (initShared twoRects blankRects)).map
          (fun s => s.drawn) =
        some [[{ x := 0, y := 0, w := 3, h := 3 }, { x := 11, y := 11, w := 3, h := 3 }]] ∧
      (∀ k : Nat, advanceN { x := 640, y := 640 } 2 k twoRects ≠
        some [{ x := 0, y := 0, w := 3, h := 3 }, { x := 11, y := 11, w := 3, h := 3 }]) := by
  refine ⟨by decide, by decide, fun k hk => ?_⟩
  have h := advanceN_pointwise { x := 640, y := 640 } twoRects k _ hk
  unfold twoRects at h
  rw [List.forall₂_cons] at h
  obtain ⟨ha, h⟩ := h
  rw [List.forall₂_cons] at h
  obtain ⟨hb, _⟩ := h
  rw [@moveRectN_eq_some k { x := 0, y := 0, w := 3, h := 3 } { x := 640, y := 640 }
    (by decide) (by decide) (by decide) (by decide) (by decide) (by decide)] at ha
  rw [@moveRectN_eq_some k { x := 10, y := 10, w := 3, h := 3 } { x := 640, y := 640 }
    (by decide) (by decide) (by decide) (by decide) (by decide) (by decide)] at hb
  simp only [Option.some.injEq, SDL_Rect.mk.injEq, and_true] at ha hb
  omega

/-! ## Snapshots without a mutex (claim C8) -/

/-- In the `640 × 640` domain no number of update passes takes `twoRects` to the batch with
object 0 unmoved and object 1 moved once. -/
theorem mixed_batch_is_no_generation (k : Nat) :
    advanceN { x := 640, y := 640 } 2 k twoRects ≠
      some [{ x := 0, y := 0, w := 3, h := 3 }, { x := 11, y := 11, w := 3, h := 3 }] := by
  intro hk
  have h := advanceN_pointwise { x := 640, y := 640 } twoRects k _ hk
  unfold twoRects at h
  rw [List.forall₂_cons] at h
  obtain ⟨ha, h⟩ := h
  rw [List.forall₂_cons] at h
  obtain ⟨hb, _⟩ := h
  rw [@moveRectN_eq_some k { x := 0, y := 0, w := 3, h := 3 } { x := 640, y := 640 }
    (by decide) (by decide) (by decide) (by decide) (by decide) (by decide)] at ha
  rw [@moveRectN_eq_some k { x := 10, y := 10, w := 3, h := 3 } { x := 640, y := 640 }
    (by decide) (by decide) (by decide) (by decide) (by decide) (by decide)] at hb
  simp only [Option.some.injEq, SDL_Rect.mk.injEq, and_true] at ha hb
  omega

/-- C8, the code at the failing input. When `SDL_CreateMutex` returned null and the update thread
runs, the interleaving `midCopySchedule` (copy of object 0, then one update pass, then copy of
object 1) makes `renderFn` draw one batch, and for that sequence of batches there is no list of
pass counts `ks`, non-decreasing or not, such that each batch is the collection after `k` update
passes. The same interleaving with the mutex created draws the initial collection. -/
theorem null_mutex_snapshot_is_no_generation :
    (exec nullMutexSetup midCopySchedule (initShared twoRects blankRects)).map
        (fun s => s.drawn) =
        some [[{ x := 0, y := 0, w := 3, h := 3 }, { x := 11, y := 11, w := 3, h := 3 }]] ∧
      (¬ ∃ ks : List Nat,
        List.Forall₂
          (fun k batch =>
            advanceN nullMutexSetup.size nullMutexSetup.numRects k twoRects = some batch)
          ks [[{ x := 0, y := 0, w := 3, h := 3 }, { x := 11, y := 11, w := 3, h := 3 }]]) ∧
      (exec lockedSetup midCopySchedule (initShared twoRects blankRects)).map
          (fun s => s.drawn) = some [twoRects] := by
  refine ⟨by decide, ?_, by decide⟩
  rintro ⟨ks, h⟩
  cases h with
  | cons hk _ => exact mixed_batch_is_no_generation _ hk

end Benchmark








